import Mathlib

/-!
Verification development for the timesheet-to-task reconciliation pipeline
(`services/excelParser.js` second revision, `routes/api/tfs.js` second revision,
`models/TfsTask.js`).  JavaScript numbers are modelled as `ℚ`, JS `Map`s as
insertion-ordered association lists, absent/`null`/`undefined` values as
`Option`, and Excel dates as their already-normalized date-only strings
(date parsing itself carries no algorithmic content used by the pipeline).
-/

set_option maxHeartbeats 1000000

namespace GPP

/-! ## Character classes used by the narrative regular expressions -/

/-- JS `\s` (the whitespace characters occurring in the data are ASCII). -/
def isWsC (c : Char) : Bool :=
  c = ' ' || c = '\t' || c = '\n' || c = '\r' || c = '\x0b' || c = '\x0c'

/-- JS `\d`. -/
def isDigitC (c : Char) : Bool := '0' ≤ c && c ≤ '9'

/-- JS `[A-Za-z]`. -/
def isAlphaC (c : Char) : Bool := ('A' ≤ c && c ≤ 'Z') || ('a' ≤ c && c ≤ 'z')

/-- JS `\w`. -/
def isWordC (c : Char) : Bool := isAlphaC c || isDigitC c || c = '_'

/-- Skip a maximal whitespace run (`\s*`). -/
def skipWs : List Char → List Char
  | [] => []
  | c :: cs => if isWsC c then skipWs cs else c :: cs

/-- Match a literal case-insensitively (the literal is given lowercased),
returning the rest of the input (`/literal/i`). -/
def litCI : List Char → List Char → Option (List Char)
  | [], s => some s
  | _ :: _, [] => none
  | p :: ps, c :: cs => if c.toLower = p then litCI ps cs else none

/-- Match `\s+` (at least one whitespace character, maximal run). -/
def ws1 : List Char → Option (List Char)
  | [] => none
  | c :: cs => if isWsC c then some (skipWs cs) else none

/-- Accumulate a maximal digit run into a number (`parseInt` of the run). -/
def digitsVal : Nat → List Char → Nat × List Char
  | acc, [] => (acc, [])
  | acc, c :: cs =>
    if isDigitC c then digitsVal (10 * acc + (c.toNat - 48)) cs else (acc, c :: cs)

/-- Match `(\d+)` (greedy, at least one digit) returning its numeric value. -/
def digits1 : List Char → Option (Nat × List Char)
  | [] => none
  | c :: cs => if isDigitC c then some (digitsVal (c.toNat - 48) cs) else none

/-- Match exactly `n` digits (`\d{n}`) returning their numeric value. -/
def digitsN : Nat → Nat → List Char → Option (Nat × List Char)
  | 0, acc, s => some (acc, s)
  | _ + 1, _, [] => none
  | n + 1, acc, c :: cs =>
    if isDigitC c then digitsN n (10 * acc + (c.toNat - 48)) cs else none

/-! ## The seven narrative patterns of `extractTfsId` (second revision),
each as a matcher anchored at one scan position. -/

/-- `/TFS\s*Task\s*(\d+)/i` at one position. -/
def pat1At (s : List Char) : Option Nat :=
  match litCI "tfs".data s with
  | none => none
  | some r1 =>
    match litCI "task".data (skipWs r1) with
    | none => none
    | some r2 => (digits1 (skipWs r2)).map Prod.fst

/-- `/TFS\s+(\d+)/i` at one position. -/
def pat2At (s : List Char) : Option Nat :=
  match litCI "tfs".data s with
  | none => none
  | some r1 =>
    match ws1 r1 with
    | none => none
    | some r2 => (digits1 r2).map Prod.fst

/-- `/Task\s+(\d+)/i` at one position. -/
def pat3At (s : List Char) : Option Nat :=
  match litCI "task".data s with
  | none => none
  | some r1 =>
    match ws1 r1 with
    | none => none
    | some r2 => (digits1 r2).map Prod.fst

/-- `/^(\d{5})\s*[-–]/` (anchored at the start of the narrative). -/
def pat4 (s : List Char) : Option Nat :=
  match digitsN 5 0 s with
  | none => none
  | some (v, r) =>
    match skipWs r with
    | c :: _ => if c = '-' || c = '–' then some v else none
    | [] => none

/-- The follower class `(?:\s|[A-Za-z]|$)` of patterns 5 and 6. -/
def followerOk : List Char → Bool
  | [] => true
  | c :: _ => isWsC c || isAlphaC c

/-- `/\^\s*(\d{5})(?:\s|[A-Za-z]|$)/` at one position. -/
def pat5At : List Char → Option Nat
  | [] => none
  | c :: cs =>
    if c = '^' then
      match digitsN 5 0 (skipWs cs) with
      | some (v, r) => if followerOk r then some v else none
      | none => none
    else none

/-- `/>\s*\^\s*(\d{5})(?:\s|[A-Za-z]|$)/` at one position. -/
def pat6At : List Char → Option Nat
  | [] => none
  | c :: cs => if c = '>' then pat5At (skipWs cs) else none

/-- The `(\d{5})\s+\w` core of pattern 7. -/
def pat7core (s : List Char) : Option Nat :=
  match digitsN 5 0 s with
  | none => none
  | some (v, r) =>
    match ws1 r with
    | none => none
    | some (c :: _) => if isWordC c then some v else none
    | some [] => none

/-- The consuming `[>\s]` alternative of pattern 7's `(?:^|[>\s])` at one position. -/
def pat7At : List Char → Option Nat
  | [] => none
  | c :: cs => if c = '>' || isWsC c then pat7core cs else none

/-- Try a position-anchored matcher at every scan position, leftmost first
(JS `String.prototype.match` without the `g` flag). -/
def scan (m : List Char → Option Nat) : List Char → Option Nat
  | [] => m []
  | c :: cs =>
    match m (c :: cs) with
    | some v => some v
    | none => scan m cs

/-- `/(?:^|[>\s])(\d{5})\s+\w/`: the `^` alternative applies only at position 0. -/
def pat7 (s : List Char) : Option Nat :=
  match pat7core s with
  | some v => some v
  | none => scan pat7At s

/-- The ordered pattern list of `extractTfsId` (second revision). -/
def patterns : List (List Char → Option Nat) :=
  [scan pat1At, scan pat2At, scan pat3At, pat4, scan pat5At, scan pat6At, pat7]

/-- The range validation `id >= 10000 && id <= 99999`. -/
def inRange (v : Nat) : Bool := 10000 ≤ v && v ≤ 99999

/-- The pattern loop: the first pattern whose (first) match is in range wins;
an out-of-range match falls through to the next pattern. -/
def firstInRange : List (List Char → Option Nat) → List Char → Option Nat
  | [], _ => none
  | p :: ps, s =>
    match p s with
    | some v => if inRange v then some v else firstInRange ps s
    | none => firstInRange ps s

/-- `extractTfsId(narrative)` (second revision; an absent narrative is
modelled as the empty string, which is falsy in JS). -/
def extractTfsId (narrative : String) : Option Nat :=
  if narrative = "" then none else firstInRange patterns narrative.data

/-! ## Activity filter -/

/-- `ExcelParser.SKIP_ACTIVITIES`. -/
def SKIP_ACTIVITIES : List String :=
  ["PTO/Vacation", "Holiday", "Death in Family", "Leave Without Pay",
   "Administrative Shutdown"]

/-- `toLowerCase` of a string, as its character list (ASCII data). -/
def lowerStr (s : String) : List Char := s.data.map Char.toLower

/-- Boolean prefix test on lists. -/
def prefixOfB {α : Type} [DecidableEq α] : List α → List α → Bool
  | [], _ => true
  | _ :: _, [] => false
  | a :: as, b :: bs => a = b && prefixOfB as bs

/-- JS `String.prototype.includes`: `sub` occurs contiguously in `s`. -/
def containsSub {α : Type} [DecidableEq α] (sub : List α) : List α → Bool
  | [] => prefixOfB sub []
  | b :: bs => prefixOfB sub (b :: bs) || containsSub sub bs

/-- `shouldSkipActivity(activityCodeDesc)`: case-insensitive substring test
against the skip list (an absent description is modelled as `""`, falsy). -/
def shouldSkipActivity (activityCodeDesc : String) : Bool :=
  if activityCodeDesc = "" then false
  else SKIP_ACTIVITIES.any fun sk => containsSub (lowerStr sk) (lowerStr activityCodeDesc)

/-! ## Raw rows, time entries and draft tasks -/

/-- One `3e` sheet row. `workDate` stands for the parsed work date as its
date-only ISO string; `workHrs` is `WorkHrs` (absent cell = `none`);
`matterNumber` is kept as an optional string (only compared to falsy and
used as a group key downstream). -/
structure RawRow where
  timekeeperNumber : Nat
  firstName : String
  lastName : String
  title : String
  workDate : Option String
  workHrs : Option ℚ
  narrative : String
  activityCode : String
  activityCodeDesc : String
  matterNumber : Option String
  matterName : String
deriving DecidableEq, Repr

/-- The developer display name `` `${row.FirstName} ${row.LastName}` ``. -/
def devName (r : RawRow) : String := r.firstName ++ " " ++ r.lastName

/-- A row survives both skip rules of `parseTimesheetData` (second revision):
the activity filter and the special-cased contributor rule. -/
def keptRow (r : RawRow) : Bool :=
  !shouldSkipActivity r.activityCodeDesc
    && !(r.firstName = "Miriah" && r.lastName = "Pooler")

/-- A time entry embedded in a task. -/
structure TimeEntry where
  timekeeperNumber : Nat
  lastName : String
  firstName : String
  title : String
  workDate : Option String
  workDateOnly : Option String
  workHrs : ℚ
  narrative : String
  activityCode : String
  activityCodeDesc : String
deriving DecidableEq, Repr

/-- The entry object built from a row (`workHrs: row.WorkHrs || 0`). -/
def entryOf (r : RawRow) : TimeEntry :=
  { timekeeperNumber := r.timekeeperNumber, lastName := r.lastName,
    firstName := r.firstName, title := r.title, workDate := r.workDate,
    workDateOnly := r.workDate, workHrs := r.workHrs.getD 0,
    narrative := r.narrative, activityCode := r.activityCode,
    activityCodeDesc := r.activityCodeDesc }

/-- A draft (or merged) task record.  `estimated`/`quality` are absent until
the metadata merge. -/
structure DraftTask where
  tfsId : Int
  originalTfsId : Option Nat
  title : String
  tfsIdNotEntered : Bool
  matterNumber : Option String
  estimated : Option ℚ := none
  quality : Option ℚ := none
  timeEntries : List TimeEntry
  totalActualHours : ℚ
  developerBreakdown : List (String × ℚ)
  developerBreakdownByDate : List (String × List (String × ℚ))
deriving DecidableEq, Repr

/-- The grouper's `taskMap` keys.  The source uses the template strings
`` `tfs-${tfsId}` ``, `` `tfs-${tfsId}-${devName}` `` and
`` `orphan-${counter}` ``; this encoding is injective (the shapes differ
in their literal heads, and within a shape the digit run before the first
hyphen after the head determines the split), so key identity coincides. -/
inductive MapKey where
  | tfs (id : Nat)
  | tfsDev (id : Nat) (dev : String)
  | orphan (n : Int)
deriving DecidableEq, Repr

/-! ## Insertion-ordered association lists (JS `Map`) -/

/-- `Map.prototype.get`. -/
def lookupA {κ α : Type} [DecidableEq κ] (k : κ) : List (κ × α) → Option α
  | [] => none
  | (k2, v) :: rest => if k2 = k then some v else lookupA k rest

/-- `Map.prototype.has`. -/
def containsA {κ α : Type} [DecidableEq κ] (k : κ) (m : List (κ × α)) : Bool :=
  (lookupA k m).isSome

/-- `Map.prototype.set`: replace in place, or append at the end. -/
def setA {κ α : Type} [DecidableEq κ] (k : κ) (v : α) : List (κ × α) → List (κ × α)
  | [] => [(k, v)]
  | (k2, v2) :: rest => if k2 = k then (k2, v) :: rest else (k2, v2) :: setA k v rest

/-- Update the value stored at an existing key in place. -/
def modifyA {κ α : Type} [DecidableEq κ] (k : κ) (f : α → α) : List (κ × α) → List (κ × α)
  | [] => []
  | (k2, v) :: rest => if k2 = k then (k2, f v) :: rest else (k2, v) :: modifyA k f rest

/-- `Map.prototype.delete`. -/
def removeA {κ α : Type} [DecidableEq κ] (k : κ) (m : List (κ × α)) : List (κ × α) :=
  m.filter fun p => p.1 ≠ k

/-- `map.set(key, (map.get(key) || 0) + q)`. -/
def bumpA {κ : Type} [DecidableEq κ] (k : κ) (q : ℚ) (m : List (κ × ℚ)) : List (κ × ℚ) :=
  setA k ((lookupA k m).getD 0 + q) m

/-- The per-date accumulation `devDates[dateOnly] = (devDates[dateOnly] || 0) + hrs`
(creating the inner object when absent). -/
def bumpNested (dk : String) (d : String) (q : ℚ)
    (m : List (String × List (String × ℚ))) : List (String × List (String × ℚ)) :=
  setA dk (bumpA d q ((lookupA dk m).getD [])) m

/-! ## First pass: developers per TFS ID -/

/-- `Set.prototype.add` on an insertion-ordered list. -/
def addUnique {α : Type} [DecidableEq α] (l : List α) (x : α) : List α :=
  if x ∈ l then l else l ++ [x]

/-- Add one row's developer to the per-identifier developer set. -/
def addDev (m : List (Nat × List String)) (t : Nat) (d : String) :
    List (Nat × List String) :=
  match lookupA t m with
  | some devs => setA t (addUnique devs d) m
  | none => m ++ [(t, [d])]

/-- The first pass of `parseTimesheetData`: count developers per TFS ID over
the rows kept by both skip rules. -/
def tfsDevCount (rows : List RawRow) : List (Nat × List String) :=
  rows.foldl
    (fun m r =>
      if keptRow r then
        match extractTfsId r.narrative with
        | some t => addDev m t (devName r)
        | none => m
      else m)
    []

/-- The number of distinct developers resolving to identifier `t`. -/
def devCountOf (rows : List RawRow) (t : Nat) : Nat :=
  ((lookupA t (tfsDevCount rows)).getD []).length

/-- `tfsDevCount.get(tfsId)?.size || 1`. -/
def devCountJs (rows : List RawRow) (t : Nat) : Nat :=
  if devCountOf rows t = 0 then 1 else devCountOf rows t

/-! ## Second pass: grouping rows into draft tasks -/

/-- `row.MatterName || 'Unknown'` and similar string defaults (`""` is falsy). -/
def jsOrStr (s : String) (d : String) : String := if s = "" then d else s

/-- The orphan-task title
`` `${row.MatterName || 'Unknown'} - ${devName} (${dateStr})` ``. -/
def orphanTitle (r : RawRow) : String :=
  jsOrStr r.matterName "Unknown" ++ " - " ++ devName r ++ " (" ++ r.workDate.getD "" ++ ")"

/-- The developer-split title `` `[TFS ${tfsId}] - ${devName}` ``. -/
def splitTitle (t : Nat) (d : String) : String :=
  "[TFS " ++ toString t ++ "] - " ++ d

/-- A freshly created task-map value. -/
def newDraft (taskId : Int) (orig : Option Nat) (title : String)
    (notEntered : Bool) (mn : Option String) : DraftTask :=
  { tfsId := taskId, originalTfsId := orig, title := title,
    tfsIdNotEntered := notEntered, matterNumber := mn, timeEntries := [],
    totalActualHours := 0, developerBreakdown := [],
    developerBreakdownByDate := [] }

/-- The per-row accumulation shared by all three branches: the better-title
update, the entry push, the running total and both breakdowns. -/
def addEntryToTask (r : RawRow) (task : DraftTask) : DraftTask :=
  let e := entryOf r
  let dk := devName r
  let t1 := if task.title = "" && r.matterName ≠ "" then
      { task with title := r.matterName } else task
  let t2 := { t1 with
    timeEntries := t1.timeEntries ++ [e],
    totalActualHours := t1.totalActualHours + e.workHrs,
    developerBreakdown := bumpA dk e.workHrs t1.developerBreakdown }
  match r.workDate with
  | some d0 =>
    { t2 with developerBreakdownByDate := bumpNested dk d0 e.workHrs t2.developerBreakdownByDate }
  | none => t2

/-- The grouper state: the task map and the negative placeholder counter. -/
structure GroupState where
  taskMap : List (MapKey × DraftTask)
  counter : Int
deriving Repr

/-- Insert the branch's fresh value when the key is absent, then accumulate
the row into the keyed task. -/
def stepTask (key : MapKey) (fresh : DraftTask) (r : RawRow)
    (m : List (MapKey × DraftTask)) : List (MapKey × DraftTask) :=
  modifyA key (addEntryToTask r) (if containsA key m then m else m ++ [(key, fresh)])

/-- One iteration of the second pass of `parseTimesheetData` (second
revision).  `rows` is the whole batch (for the developer-count lookup). -/
def processRow (rows : List RawRow) (st : GroupState) (r : RawRow) : GroupState :=
  if !keptRow r then st
  else
    match extractTfsId r.narrative with
    | some t =>
      if devCountJs rows t = 1 then
        { taskMap := stepTask (MapKey.tfs t) (newDraft (t : Int) none "" false r.matterNumber) r st.taskMap,
          counter := st.counter }
      else
        { taskMap := stepTask (MapKey.tfsDev t (devName r))
            (newDraft st.counter (some t) (splitTitle t (devName r)) false r.matterNumber) r st.taskMap,
          counter := st.counter - 1 }
    | none =>
      { taskMap := stepTask (MapKey.orphan st.counter)
          (newDraft st.counter none (orphanTitle r) true r.matterNumber) r st.taskMap,
        counter := st.counter - 1 }

/-- `parseTimesheetData()` (second revision): both passes, returning the task
map's values in insertion order. -/
def parseTimesheetData (rows : List RawRow) : List DraftTask :=
  ((rows.foldl (processRow rows) ⟨[], -1⟩).taskMap).map Prod.snd

/-! ## Metadata sheet (`scorebyTFS`) parsing -/

/-- One raw `scorebyTFS` row (reading absent cells as `none`). -/
structure MetaRow where
  ID : Option Int
  Title : Option String
  Estimated : Option ℚ
  Quality : Option ℚ
deriving DecidableEq, Repr

/-- A parsed metadata record. -/
structure ScoreRec where
  tfsId : Int
  title : String
  estimated : Option ℚ
  quality : Option ℚ
deriving DecidableEq, Repr

/-- `value || null` on a numeric cell: both an absent cell and a `0` cell
yield `null`. -/
def jsOrNull (v : Option ℚ) : Option ℚ :=
  match v with
  | some x => if x = 0 then none else some x
  | none => none

/-- The record built from one metadata row (`title: row.Title || ''`,
`estimated: row.Estimated || null`, `quality: row.Quality || null`). -/
def scoreRowOf (row : MetaRow) : ScoreRec :=
  { tfsId := row.ID.getD 0, title := jsOrStr (row.Title.getD "") "",
    estimated := jsOrNull row.Estimated, quality := jsOrNull row.Quality }

/-- The `.filter(item => item.tfsId)` truthiness test on the raw `ID` cell. -/
def keepMeta (row : MetaRow) : Bool := row.ID ≠ none && row.ID ≠ some 0

/-- `parseTfsScoreData()` (mapping then filtering on a truthy `tfsId`,
written filter-first over the raw cell, which commutes with the map). -/
def parseTfsScoreData (rows : List MetaRow) : List ScoreRec :=
  (rows.filter keepMeta).map scoreRowOf

/-! ## Metadata merge -/

/-- `new Map(scoreData.map(s => [s.tfsId, s]))`: later duplicates replace
earlier values in place. -/
def buildScoreMap (scores : List ScoreRec) : List (Int × ScoreRec) :=
  scores.foldl (fun m s => setA s.tfsId s m) []

/-- The matched-row override: title only when the metadata title is truthy,
estimated and quality unconditionally. -/
def applyScore (s : ScoreRec) (t : DraftTask) : DraftTask :=
  { t with title := if s.title ≠ "" then s.title else t.title,
           estimated := s.estimated, quality := s.quality }

/-- A standalone task built from an unconsumed metadata row. -/
def standaloneTask (s : ScoreRec) : DraftTask :=
  { tfsId := s.tfsId, originalTfsId := none, title := s.title,
    tfsIdNotEntered := false, matterNumber := none, estimated := s.estimated,
    quality := s.quality, timeEntries := [], totalActualHours := 0,
    developerBreakdown := [], developerBreakdownByDate := [] }

/-- The merge loop of `getMergedData`: override matched drafts consuming the
matched metadata row, and return the leftover map. -/
def mergeLoop : List DraftTask → List (Int × ScoreRec) →
    List DraftTask × List (Int × ScoreRec)
  | [], m => ([], m)
  | t :: ts, m =>
    match lookupA t.tfsId m with
    | some s =>
      let rest := mergeLoop ts (removeA t.tfsId m)
      (applyScore s t :: rest.1, rest.2)
    | none =>
      let rest := mergeLoop ts m
      (t :: rest.1, rest.2)

/-- Merge drafts with metadata records; unconsumed records are appended as
standalone tasks in map order. -/
def mergeData (drafts : List DraftTask) (scores : List ScoreRec) : List DraftTask :=
  let res := mergeLoop drafts (buildScoreMap scores)
  res.1 ++ res.2.map fun p => standaloneTask p.2

/-- Stable insertion step for `.sort((a, b) => b.tfsId - a.tfsId)`. -/
def insertDesc (x : DraftTask) : List DraftTask → List DraftTask
  | [] => [x]
  | y :: l => if x.tfsId < y.tfsId then y :: insertDesc x l else x :: y :: l

/-- Stable sort by `tfsId` descending. -/
def sortDesc : List DraftTask → List DraftTask
  | [] => []
  | x :: l => insertDesc x (sortDesc l)

/-- `getMergedData()` (second revision). -/
def getMergedData (rows : List RawRow) (scoreRows : List MetaRow) : List DraftTask :=
  sortDesc (mergeData (parseTimesheetData rows) (parseTfsScoreData scoreRows))

/-! ## `TfsTask.recalculateTotals` -/

/-- `entry.workDateOnly || (entry.workDate ? iso(entry.workDate) : null)`. -/
def entryDateStr (e : TimeEntry) : Option String :=
  match e.workDateOnly with
  | some d => some d
  | none => e.workDate

/-- `recalculateTotals()` from `models/TfsTask.js`: rebuild the total and both
breakdowns from the embedded time entries (the source's single `forEach`
builds the two breakdowns independently; they are written as separate folds). -/
def recalculateTotals (t : DraftTask) : DraftTask :=
  { t with
    totalActualHours := t.timeEntries.foldl (fun s e => s + e.workHrs) 0,
    developerBreakdown :=
      t.timeEntries.foldl
        (fun m e => bumpA (e.firstName ++ " " ++ e.lastName) e.workHrs m) [],
    developerBreakdownByDate :=
      t.timeEntries.foldl
        (fun m e =>
          match entryDateStr e with
          | some d => bumpNested (e.firstName ++ " " ++ e.lastName) d e.workHrs m
          | none => m)
        [] }

/-! ## Persisted task documents and the batch engines -/

/-- A persisted `TfsTask` document, restricted to the fields the engines
read or write. -/
structure TaskDoc where
  tfsId : Int
  estimated : Option ℚ
  quality : Option ℚ
  totalActualHours : ℚ
  matterNumber : Option String
  developerBreakdown : List (String × ℚ)
  estimateSource : Option String
  estimateGroup : Option String
deriving DecidableEq, Repr

/-- Insertion step for the ascending numeric sort `(a, b) => a - b`. -/
def insertAsc (x : ℚ) : List ℚ → List ℚ
  | [] => [x]
  | y :: l => if y < x then y :: insertAsc x l else x :: y :: l

/-- Ascending sort of the copied values array. -/
def sortAsc : List ℚ → List ℚ
  | [] => []
  | x :: l => insertAsc x (sortAsc l)

/-- The `median` helper of the estimation routes. -/
def median (values : List ℚ) : ℚ :=
  if values = [] then 0
  else
    let sorted := sortAsc values
    let mid := sorted.length / 2
    if sorted.length % 2 ≠ 0 then sorted.getD mid 0
    else (sorted.getD (mid - 1) 0 + sorted.getD mid 0) / 2

/-- The median absolute deviation of a group. -/
def madOf (values : List ℚ) : ℚ := median (values.map fun v => |v - median values|)

/-- JS `Math.round` (half toward positive infinity). -/
def jsRound (x : ℚ) : Int := ⌊x + 1 / 2⌋

/-- `raw >= 100 ? Math.ceil(raw / 10) * 10 : Math.round(raw) || 1`. -/
def estRound (raw : ℚ) : Int :=
  if 100 ≤ raw then ⌈raw / 10⌉ * 10
  else if jsRound raw = 0 then 1 else jsRound raw

/-- The group estimate `median + 0.5 * MAD`, rounded per policy. -/
def groupEstimate (actuals : List ℚ) : Int :=
  estRound (median actuals + 1 / 2 * madOf actuals)

/-- Stable insertion step for `.sort((a, b) => b[1] - a[1])` on breakdown
entries. -/
def insertPairDesc (x : String × ℚ) : List (String × ℚ) → List (String × ℚ)
  | [] => [x]
  | y :: l => if x.2 < y.2 then y :: insertPairDesc x l else x :: y :: l

/-- Stable sort of breakdown entries by hours descending. -/
def sortPairsDesc : List (String × ℚ) → List (String × ℚ)
  | [] => []
  | x :: l => insertPairDesc x (sortPairsDesc l)

/-- `getPrimaryDeveloper(task)`: the breakdown entry with the most hours
(first-seen wins on ties), `'Unknown'` when the breakdown is empty. -/
def getPrimaryDeveloper (t : TaskDoc) : String :=
  match sortPairsDesc t.developerBreakdown with
  | [] => "Unknown"
  | p :: _ => p.1

/-- The caller-selected grouping key. -/
inductive GroupBy where
  | developer
  | matter
deriving DecidableEq, Repr

/-- `row.MatterName || 'Unknown'` on an optional string. -/
def jsOrOptStr (s : Option String) (d : String) : String :=
  match s with
  | some x => jsOrStr x d
  | none => d

/-- The group key of a task (`task.matterNumber || 'Unknown'`, or the
primary developer). -/
def groupKeyOf (g : GroupBy) (t : TaskDoc) : String :=
  match g with
  | .matter => jsOrOptStr t.matterNumber "Unknown"
  | .developer => getPrimaryDeveloper t

/-- The estimation candidate query: actual hours and no estimate. -/
def estElig (t : TaskDoc) : Bool := 0 < t.totalActualHours && t.estimated = none

/-- Append a task to its group (insertion-ordered `Map` of arrays). -/
def pushGroup (k : String) (t : TaskDoc) (m : List (String × List TaskDoc)) :
    List (String × List TaskDoc) :=
  match lookupA k m with
  | some l => setA k (l ++ [t]) m
  | none => m ++ [(k, [t])]

/-- Group the candidate tasks by their group key. -/
def buildGroups (g : GroupBy) (tasks : List TaskDoc) : List (String × List TaskDoc) :=
  tasks.foldl (fun m t => pushGroup (groupKeyOf g t) t m) []

/-- The per-task update of the estimation engine:
`estimated = Math.max(estimate, Math.ceil(task.totalActualHours))` plus the
audit fields. -/
def applyEstimate (actuals : List ℚ) (key : String) (t : TaskDoc) : TaskDoc :=
  { t with
    estimated := some ((max (groupEstimate actuals) ⌈t.totalActualHours⌉ : Int) : ℚ),
    estimateSource := some "bell-curve", estimateGroup := some key }

/-- `calculateBellCurveEstimates(groupBy)` /
`POST /api/tfs/calculate-estimates`: the resulting task set after every
group member is updated. -/
def calculateBellCurveEstimates (g : GroupBy) (tasks : List TaskDoc) : List TaskDoc :=
  let elig := tasks.filter estElig
  let groups := buildGroups g elig
  tasks.map fun t =>
    if estElig t then
      match lookupA (groupKeyOf g t) groups with
      | some gts => applyEstimate (gts.map (·.totalActualHours)) (groupKeyOf g t) t
      | none => t
    else t

/-- The variance-to-score mapping of `calculateBellCurveQuality`. -/
def bellQuality (actualHours estimated : ℚ) : ℚ :=
  let variancePercent := (actualHours - estimated) / estimated
  if variancePercent ≤ -(1 / 4) then 5
  else if variancePercent ≤ -(1 / 10) then 4
  else if variancePercent ≤ 1 / 4 then 3
  else 2

/-- `calculateBellCurveQuality()`: score every task with actual hours, a
positive estimate and no quality. -/
def calculateBellCurveQuality (tasks : List TaskDoc) : List TaskDoc :=
  tasks.map fun t =>
    match t.estimated with
    | some e =>
      if 0 < t.totalActualHours && 0 < e && t.quality = none then
        { t with quality := some (bellQuality t.totalActualHours e) }
      else t
    | none => t

/-- The repair query `totalActualHours > 0 && estimated != null &&
estimated < totalActualHours`. -/
def needsFix (t : TaskDoc) : Bool :=
  0 < t.totalActualHours &&
    match t.estimated with
    | some e => e < t.totalActualHours
    | none => false

/-- The per-task repair `task.estimated = Math.ceil(task.totalActualHours)`. -/
def fixOne (t : TaskDoc) : TaskDoc :=
  if needsFix t then { t with estimated := some ((⌈t.totalActualHours⌉ : Int) : ℚ) }
  else t

/-- `fixLowEstimates()`: raise low estimates to `Math.ceil(actual)`. -/
def fixLowEstimates (tasks : List TaskDoc) : List TaskDoc :=
  tasks.map fixOne

/-! ## Import-time title marker (`POST /api/tfs/import`, second revision) -/

/-- The literal marker string. -/
def MARKER : String := "[TFS ID Not Entered]"

/-- The title-marking step of the import route:
`if (tfsIdNotEntered && !title?.includes(marker)) title = title ? title + ' ' + marker : marker`. -/
def markTitle (tfsIdNotEntered : Bool) (title : String) : String :=
  if tfsIdNotEntered && !containsSub MARKER.data title.data then
    if title = "" then MARKER else title ++ " " ++ MARKER
  else title

/-! ## Verification-support definitions (not source translations) -/

/-- A task whose fractional estimate lies strictly between its actual hours
and their ceiling. -/
def lowEstTask : TaskDoc :=
  { tfsId := 1, estimated := some (27 / 10), quality := none,
    totalActualHours := 5 / 2, matterNumber := none, developerBreakdown := [],
    estimateSource := none, estimateGroup := none }

/-- Proof-support invariant of the grouper's second pass, relating the state
after folding a prefix `processed` of the batch `rows` to that prefix:
counter negativity, the shape of every task by key kind, key presence,
identifier freshness, the orphan count, and the per-orphan-row task. -/
def GrouperInv (rows processed : List RawRow) (st : GroupState) : Prop :=
  st.counter < 0 ∧
  ((st.taskMap.map Prod.fst).Nodup) ∧
  (∀ k task, (k, task) ∈ st.taskMap →
    (match k with
     | MapKey.tfs t =>
       task.tfsId = (t : Int) ∧ task.originalTfsId = none ∧
       task.tfsIdNotEntered = false ∧
       task.timeEntries =
         (((processed.filter keptRow).filter fun r2 =>
             extractTfsId r2.narrative = some t).map entryOf)
     | MapKey.tfsDev t d =>
       task.tfsId < 0 ∧ st.counter < task.tfsId ∧ task.originalTfsId = some t ∧
       task.tfsIdNotEntered = false ∧ task.title = splitTitle t d ∧
       task.timeEntries =
         (((processed.filter keptRow).filter fun r2 =>
             extractTfsId r2.narrative = some t ∧ devName r2 = d).map entryOf)
     | MapKey.orphan n =>
       task.tfsId = n ∧ st.counter < n ∧ n < 0 ∧ task.originalTfsId = none ∧
       task.tfsIdNotEntered = true)) ∧
  (∀ t : Nat, containsA (MapKey.tfs t) st.taskMap = true ↔
    (devCountJs rows t = 1 ∧ ∃ r2 ∈ processed.filter keptRow,
      extractTfsId r2.narrative = some t)) ∧
  (∀ (t : Nat) (d : String), containsA (MapKey.tfsDev t d) st.taskMap = true ↔
    (devCountJs rows t ≠ 1 ∧ ∃ r2 ∈ processed.filter keptRow,
      extractTfsId r2.narrative = some t ∧ devName r2 = d)) ∧
  ((st.taskMap.map fun p => p.2.tfsId).Nodup) ∧
  ((st.taskMap.filter fun p => p.2.tfsIdNotEntered).length =
    ((processed.filter keptRow).filter fun r2 =>
      extractTfsId r2.narrative = none).length) ∧
  (∀ r2 ∈ processed.filter keptRow, extractTfsId r2.narrative = none →
    ∃ p ∈ st.taskMap, (∃ n : Int, p.1 = MapKey.orphan n) ∧
      p.2.timeEntries = [entryOf r2] ∧ p.2.title = orphanTitle r2)

/-! ## Helper lemmas -/

theorem firstInRange_eq_findSome (ps : List (List Char → Option Nat)) (s : List Char) :
    firstInRange ps s = ps.findSome? fun p =>
      match p s with
      | some v => if inRange v then some v else none
      | none => none := by
  induction ps with
  | nil => rfl
  | cons p ps ih =>
    simp only [firstInRange, List.findSome?_cons]
    cases hp : p s with
    | none => simpa using ih
    | some v =>
      by_cases hv : inRange v
      · simp [hv]
      · simpa [hv] using ih

theorem firstInRange_sound (ps : List (List Char → Option Nat)) (s : List Char)
    (v : Nat) (h : firstInRange ps s = some v) : inRange v = true := by
  induction ps with
  | nil => simp [firstInRange] at h
  | cons p ps ih =>
    rw [firstInRange] at h
    cases hp : p s with
    | none => simp only [hp] at h; exact ih h
    | some w =>
      simp only [hp] at h
      by_cases hw : inRange w = true
      · simp only [hw, if_true] at h
        cases h
        exact hw
      · simp only [hw, if_false] at h
        exact ih h

theorem prefixOfB_refl {α : Type} [DecidableEq α] (l : List α) : prefixOfB l l = true := by
  induction l with
  | nil => rfl
  | cons a as ih => simp [prefixOfB, ih]

theorem containsSub_append_self {α : Type} [DecidableEq α] (pre sub : List α) :
    containsSub sub (pre ++ sub) = true := by
  induction pre with
  | nil =>
    cases sub with
    | nil => rfl
    | cons c cs => simp [containsSub, prefixOfB_refl]
  | cons x pre ih => simp [containsSub, ih]

/-! ## C4: narrative extractor -/

/-- C4: the extractor applies its patterns in priority order (first pattern
with a match wins), rejects matched values outside `[10000, 99999]` falling
through to the next pattern, returns not-found when no pattern yields an
in-range value, and produces the five documented example results. -/
theorem claim_C4 :
    (extractTfsId "TFS Task 19479 - Bug fix" = some 19479 ∧
     extractTfsId "TFS 19455 development" = some 19455 ∧
     extractTfsId "Task 19532 complete" = some 19532 ∧
     extractTfsId "19542 - UI updates" = some 19542 ∧
     extractTfsId "no identifying text here" = none) ∧
    (∀ s : String, s ≠ "" →
      extractTfsId s = patterns.findSome? fun p =>
        match p s.data with
        | some v => if inRange v then some v else none
        | none => none) ∧
    (∀ s : String, ∀ v : Nat, extractTfsId s = some v → inRange v = true) := by
  refine ⟨⟨by decide, by decide, by decide, by decide, by decide⟩, ?_, ?_⟩
  · intro s hs
    rw [extractTfsId, if_neg hs]
    exact firstInRange_eq_findSome patterns s.data
  · intro s v h
    rw [extractTfsId] at h
    by_cases hs : s = ""
    · rw [if_pos hs] at h; cases h
    · rw [if_neg hs] at h
      exact firstInRange_sound patterns s.data v h

theorem claim_C4_witness :
    ("TFS 19455 development" : String) ≠ "" ∧
    extractTfsId "TFS 19455 development" =
      patterns.findSome? (fun p =>
        match p ("TFS 19455 development" : String).data with
        | some v => if inRange v then some v else none
        | none => none) :=
  ⟨by decide, claim_C4.2.1 "TFS 19455 development" (by decide)⟩

/-! ## C2: quality engine -/

/-- C2: on every task with positive actual hours, a positive estimate and no
quality score, the quality engine scores the relative variance
`v = (actual - estimated) / estimated` into 5 (`v ≤ -0.25`),
4 (`-0.25 < v ≤ -0.10`), 3 (`-0.10 < v ≤ 0.25`) or 2 (`0.25 < v`), never 1;
in particular with estimate 10 the actuals 7.5, 9.0, 12.5 and 12.6 score
5, 4, 3 and 2 respectively. -/
theorem claim_C2 :
    (∀ actual est : ℚ, 0 < est →
      (bellQuality actual est = 5 ↔ (actual - est) / est ≤ -(1 / 4)) ∧
      (bellQuality actual est = 4 ↔
        -(1 / 4) < (actual - est) / est ∧ (actual - est) / est ≤ -(1 / 10)) ∧
      (bellQuality actual est = 3 ↔
        -(1 / 10) < (actual - est) / est ∧ (actual - est) / est ≤ 1 / 4) ∧
      (bellQuality actual est = 2 ↔ 1 / 4 < (actual - est) / est)) ∧
    (∀ actual est : ℚ, bellQuality actual est ≠ 1) ∧
    (bellQuality (15 / 2) 10 = 5 ∧ bellQuality 9 10 = 4 ∧
     bellQuality (25 / 2) 10 = 3 ∧ bellQuality (63 / 5) 10 = 2) ∧
    (∀ tasks : List TaskDoc, ∀ t ∈ tasks, ∀ e : ℚ, t.estimated = some e →
      0 < t.totalActualHours → 0 < e → t.quality = none →
      { t with quality := some (bellQuality t.totalActualHours e) } ∈
        calculateBellCurveQuality tasks) := by
  refine ⟨?_, ?_, ?_, ?_⟩
  · intro actual est _
    simp only [bellQuality]
    by_cases h1 : (actual - est) / est ≤ -(1 / 4)
    · simp only [if_pos h1]
      refine ⟨⟨fun _ => h1, fun _ => trivial⟩, ?_, ?_, ?_⟩
      · exact ⟨fun hx => by norm_num at hx, fun hx => by exfalso; linarith [hx.1]⟩
      · exact ⟨fun hx => by norm_num at hx, fun hx => by exfalso; linarith [hx.1]⟩
      · exact ⟨fun hx => by norm_num at hx, fun hx => by exfalso; linarith [hx]⟩
    · simp only [if_neg h1]
      push_neg at h1
      by_cases h2 : (actual - est) / est ≤ -(1 / 10)
      · simp only [if_pos h2]
        refine ⟨?_, ⟨fun _ => ⟨h1, h2⟩, fun _ => trivial⟩, ?_, ?_⟩
        · exact ⟨fun hx => by norm_num at hx, fun hx => by exfalso; linarith [hx]⟩
        · exact ⟨fun hx => by norm_num at hx, fun hx => by exfalso; linarith [hx.1]⟩
        · exact ⟨fun hx => by norm_num at hx, fun hx => by exfalso; linarith [hx]⟩
      · simp only [if_neg h2]
        push_neg at h2
        by_cases h3 : (actual - est) / est ≤ 1 / 4
        · simp only [if_pos h3]
          refine ⟨?_, ?_, ⟨fun _ => ⟨h2, h3⟩, fun _ => trivial⟩, ?_⟩
          · exact ⟨fun hx => by norm_num at hx, fun hx => by exfalso; linarith [hx]⟩
          · exact ⟨fun hx => by norm_num at hx, fun hx => by exfalso; linarith [hx.2]⟩
          · exact ⟨fun hx => by norm_num at hx, fun hx => by exfalso; linarith [hx]⟩
        · simp only [if_neg h3]
          push_neg at h3
          refine ⟨?_, ?_, ?_, ⟨fun _ => h3, fun _ => trivial⟩⟩
          · exact ⟨fun hx => by norm_num at hx, fun hx => by exfalso; linarith [hx]⟩
          · exact ⟨fun hx => by norm_num at hx, fun hx => by exfalso; linarith [hx.2]⟩
          · exact ⟨fun hx => by norm_num at hx, fun hx => by exfalso; linarith [hx.2]⟩
  · intro actual est
    simp only [bellQuality]
    split_ifs <;> norm_num
  · refine ⟨?_, ?_, ?_, ?_⟩ <;> (simp only [bellQuality]; norm_num)
  · intro tasks t ht e he hpos hepos hq
    refine List.mem_map.mpr ⟨t, ht, ?_⟩
    simp [he, hpos, hepos, hq]

theorem claim_C2_witness :
    (0 : ℚ) < 10 ∧
    ((bellQuality 9 10 = 5 ↔ ((9 : ℚ) - 10) / 10 ≤ -(1 / 4)) ∧
     (bellQuality 9 10 = 4 ↔
       -(1 / 4) < ((9 : ℚ) - 10) / 10 ∧ ((9 : ℚ) - 10) / 10 ≤ -(1 / 10)) ∧
     (bellQuality 9 10 = 3 ↔
       -(1 / 10) < ((9 : ℚ) - 10) / 10 ∧ ((9 : ℚ) - 10) / 10 ≤ 1 / 4) ∧
     (bellQuality 9 10 = 2 ↔ 1 / 4 < ((9 : ℚ) - 10) / 10)) :=
  ⟨by norm_num, claim_C2.1 9 10 (by norm_num)⟩

/-! ## C10: zero metadata cells become null -/

/-- C10: metadata rows whose `Estimated` (respectively `Quality`) cell holds
`0` are parsed with `estimated = null` (respectively `quality = null`), so a
zero cell is indistinguishable from an absent one at the merger's input. -/
theorem claim_C10 :
    (∀ r : MetaRow, r.Estimated = some 0 → (scoreRowOf r).estimated = none) ∧
    (∀ r : MetaRow, r.Quality = some 0 → (scoreRowOf r).quality = none) ∧
    (∀ r : MetaRow,
      scoreRowOf { r with Estimated := some 0 } = scoreRowOf { r with Estimated := none } ∧
      scoreRowOf { r with Quality := some 0 } = scoreRowOf { r with Quality := none }) ∧
    (∀ rows : List MetaRow,
      parseTfsScoreData
          (rows.map fun r =>
            { r with Estimated := if r.Estimated = some 0 then none else r.Estimated,
                     Quality := if r.Quality = some 0 then none else r.Quality }) =
        parseTfsScoreData rows) := by
  refine ⟨?_, ?_, ?_, ?_⟩
  · intro r h
    simp [scoreRowOf, jsOrNull, h]
  · intro r h
    simp [scoreRowOf, jsOrNull, h]
  · intro r
    constructor <;> simp [scoreRowOf, jsOrNull]
  · intro rows
    induction rows with
    | nil => rfl
    | cons r rest ih =>
      simp only [List.map_cons, parseTfsScoreData, List.filter_cons] at ih ⊢
      have hk : keepMeta { r with
          Estimated := if r.Estimated = some 0 then none else r.Estimated,
          Quality := if r.Quality = some 0 then none else r.Quality } = keepMeta r := by
        simp [keepMeta]
      rw [hk]
      by_cases hkr : keepMeta r = true
      · simp only [hkr, if_true, List.map_cons]
        refine congrArg₂ List.cons ?_ ih
        simp only [scoreRowOf, jsOrNull]
        rcases hE : r.Estimated with _ | e <;> rcases hQ : r.Quality with _ | q <;>
          simp [hE, hQ] <;> split_ifs <;> simp_all
      · simp only [hkr]
        simpa using ih

theorem claim_C10_witness :
    (⟨some 55555, some "T", some 0, some 0⟩ : MetaRow).Estimated = some 0 ∧
    (scoreRowOf (⟨some 55555, some "T", some 0, some 0⟩ : MetaRow)).estimated = none :=
  ⟨rfl, claim_C10.1 ⟨some 55555, some "T", some 0, some 0⟩ rfl⟩

/-! ## C7: the fix-low-estimates repair -/

theorem ceil_five_halves : (⌈(5 / 2 : ℚ)⌉ : Int) = 3 := by
  rw [Int.ceil_eq_iff]
  all_goals norm_num

/-- C7 fails as stated: `fixLowEstimates` leaves a task with estimate `2.7`
and actual hours `2.5` untouched (the estimate is not below the actual
hours), yet after the run the task's estimate is below
`ceil(totalActualHours) = 3`. -/
theorem counterexample_C7 :
    fixLowEstimates [lowEstTask] = [lowEstTask] ∧
    lowEstTask.estimated = some (27 / 10) ∧
    0 < lowEstTask.totalActualHours ∧
    ¬ ((⌈lowEstTask.totalActualHours⌉ : Int) : ℚ) ≤ 27 / 10 := by
  refine ⟨?_, rfl, by norm_num [lowEstTask], ?_⟩
  · have : needsFix lowEstTask = false := by
      simp only [needsFix, lowEstTask]
      norm_num
    simp [fixLowEstimates, fixOne, this]
  · simp only [lowEstTask, ceil_five_halves]
    norm_num

theorem needsFix_true_iff (t : TaskDoc) :
    needsFix t = true ↔
      0 < t.totalActualHours ∧ ∃ e : ℚ, t.estimated = some e ∧ e < t.totalActualHours := by
  cases he : t.estimated with
  | none => simp [needsFix, he]
  | some e => simp [needsFix, he]

theorem fixOne_of_not_needsFix (t : TaskDoc) (h : needsFix t = false) : fixOne t = t := by
  simp [fixOne, h]

theorem fixOne_idem (t : TaskDoc) : fixOne (fixOne t) = fixOne t := by
  apply fixOne_of_not_needsFix
  rw [Bool.eq_false_iff]
  intro hcon
  rw [needsFix_true_iff] at hcon
  rcases hcon with ⟨hpos, e, he, hlt⟩
  by_cases h : needsFix t = true
  · have hest : (fixOne t).estimated = some ((⌈t.totalActualHours⌉ : Int) : ℚ) := by
      rw [fixOne, if_pos h]
    have htot : (fixOne t).totalActualHours = t.totalActualHours := by
      rw [fixOne, if_pos h]
    rw [hest] at he
    have hee : e = ((⌈t.totalActualHours⌉ : Int) : ℚ) := by simpa using he.symm
    rw [hee, htot] at hlt
    exact absurd hlt (not_lt.mpr (Int.le_ceil _))
  · rw [Bool.not_eq_true] at h
    rw [fixOne_of_not_needsFix t h] at he hlt hpos
    exact (Bool.eq_false_iff.mp h)
      ((needsFix_true_iff t).mpr ⟨hpos, e, he, hlt⟩)

/-- C7 amended: `fixLowEstimates` raises the estimate of every task with a
non-null (schema-nonnegative) estimate below its actual hours to
`ceil(actualHours)`, leaves compliant tasks unchanged, and is idempotent;
after one run every task with a non-null estimate and positive actual hours
has an estimate at least the actual hours (and at least their ceiling
whenever the estimate is an integer — but not in general, per the
counterexample). -/
theorem claim_C7 : ∀ tasks : List TaskDoc,
    (∀ t ∈ tasks, ∀ e : ℚ, t.estimated = some e → 0 ≤ e → e < t.totalActualHours →
      { t with estimated := some ((⌈t.totalActualHours⌉ : Int) : ℚ) } ∈ fixLowEstimates tasks) ∧
    (∀ t ∈ tasks, (∀ e : ℚ, t.estimated = some e → t.totalActualHours ≤ e) →
      t ∈ fixLowEstimates tasks) ∧
    fixLowEstimates (fixLowEstimates tasks) = fixLowEstimates tasks ∧
    (∀ t ∈ fixLowEstimates tasks, ∀ e : ℚ, t.estimated = some e →
      0 < t.totalActualHours →
      t.totalActualHours ≤ e ∧ ∀ n : Int, e = (n : ℚ) → ⌈t.totalActualHours⌉ ≤ n) := by
  intro tasks
  refine ⟨?_, ?_, ?_, ?_⟩
  · intro t ht e he hnn hlt
    refine List.mem_map.mpr ⟨t, ht, ?_⟩
    rw [fixOne, if_pos]
    rw [needsFix_true_iff]
    exact ⟨lt_of_le_of_lt hnn hlt, e, he, hlt⟩
  · intro t ht hcomp
    refine List.mem_map.mpr ⟨t, ht, ?_⟩
    apply fixOne_of_not_needsFix
    rw [Bool.eq_false_iff]
    intro hcon
    rw [needsFix_true_iff] at hcon
    rcases hcon with ⟨_, e, he, hlt⟩
    exact absurd hlt (not_lt.mpr (hcomp e he))
  · rw [fixLowEstimates, fixLowEstimates, List.map_map]
    exact List.map_congr_left fun t _ => fixOne_idem t
  · intro t ht e he hpos
    rcases List.mem_map.mp ht with ⟨t0, _, hft⟩
    by_cases h : needsFix t0 = true
    · rw [fixOne, if_pos h] at hft
      have hte : t.estimated = some ((⌈t0.totalActualHours⌉ : Int) : ℚ) := by
        rw [← hft]
      have hta : t.totalActualHours = t0.totalActualHours := by rw [← hft]
      rw [hte] at he
      have hee : e = ((⌈t0.totalActualHours⌉ : Int) : ℚ) := by
        simpa using he.symm
      constructor
      · rw [hee, hta]
        exact Int.le_ceil _
      · intro n hn
        rw [hee] at hn
        have : (⌈t0.totalActualHours⌉ : Int) = n := by exact_mod_cast hn
        rw [hta, ← this]
    · rw [Bool.not_eq_true] at h
      rw [fixOne_of_not_needsFix t0 h] at hft
      subst hft
      have := (Bool.eq_false_iff.mp h)
      have hnot : ¬ (0 < t0.totalActualHours ∧
          ∃ e0 : ℚ, t0.estimated = some e0 ∧ e0 < t0.totalActualHours) := by
        intro hcon
        exact this ((needsFix_true_iff t0).mpr hcon)
      push_neg at hnot
      have hle : t0.totalActualHours ≤ e := by
        by_contra hcon
        push_neg at hcon
        exact absurd hcon (not_lt.mpr (hnot hpos e he))
      refine ⟨hle, fun n hn => ?_⟩
      apply Int.ceil_le.mpr
      rw [← hn]
      exact hle

theorem claim_C7_witness :
    lowEstTask.estimated = some (27 / 10) ∧ (0 : ℚ) < lowEstTask.totalActualHours ∧
    (lowEstTask.totalActualHours ≤ 27 / 10 ∧
      ∀ n : Int, (27 / 10 : ℚ) = (n : ℚ) → ⌈lowEstTask.totalActualHours⌉ ≤ n) := by
  have hmem : lowEstTask ∈ fixLowEstimates [lowEstTask] := by
    rw [counterexample_C7.1]
    exact List.mem_singleton.mpr rfl
  exact ⟨rfl, by norm_num [lowEstTask],
    (claim_C7 [lowEstTask]).2.2.2 lowEstTask hmem (27 / 10) rfl
      (by norm_num [lowEstTask])⟩

/-! ## C8: the TFS-ID-not-entered title marker -/

/-- C8 fails as stated: the import adds the marker at the end of the title,
not as a prefix. -/
theorem counterexample_C8 :
    markTitle true "Acme - Ann Bell (2025-01-01)" =
      "Acme - Ann Bell (2025-01-01) [TFS ID Not Entered]" ∧
    prefixOfB MARKER.data (markTitle true "Acme - Ann Bell (2025-01-01)").data = false := by
  constructor <;> decide

/-- C8 amended: for fallback-identified tasks the import appends the marker
`[TFS ID Not Entered]` at the end of the title (separated by a space, or the
marker alone when the title is empty) unless the marker is already present
somewhere in the title; the marking is idempotent, so repeated imports never
duplicate the marker. -/
theorem claim_C8 : ∀ title : String,
    (containsSub MARKER.data title.data = false →
      markTitle true title = if title = "" then MARKER else title ++ " " ++ MARKER) ∧
    (containsSub MARKER.data title.data = true → markTitle true title = title) ∧
    markTitle true (markTitle true title) = markTitle true title ∧
    containsSub MARKER.data (markTitle true title).data = true ∧
    markTitle false title = title := by
  intro title
  have hmark : ∀ s : String, containsSub MARKER.data s.data = true →
      markTitle true s = s := by
    intro s hs
    simp [markTitle, hs]
  have habsent : containsSub MARKER.data title.data = false →
      markTitle true title = if title = "" then MARKER else title ++ " " ++ MARKER := by
    intro hc
    simp [markTitle, hc]
  have hcontains : containsSub MARKER.data (markTitle true title).data = true := by
    cases hc : containsSub MARKER.data title.data with
    | true => rw [hmark title hc]; exact hc
    | false =>
      rw [habsent hc]
      by_cases ht : title = ""
      · rw [if_pos ht]
        have := containsSub_append_self ([] : List Char) MARKER.data
        simpa using this
      · rw [if_neg ht]
        have hdata : (title ++ " " ++ MARKER).data =
            (title.data ++ (" " : String).data) ++ MARKER.data := by
          rw [String.data_append, String.data_append]
        rw [hdata]
        exact containsSub_append_self (title.data ++ (" " : String).data) MARKER.data
  exact ⟨habsent, hmark title, hmark _ hcontains, hcontains, by simp [markTitle]⟩

theorem claim_C8_witness :
    containsSub MARKER.data ("Hello" : String).data = false ∧
    markTitle true "Hello" =
      (if ("Hello" : String) = "" then MARKER else "Hello" ++ " " ++ MARKER) :=
  ⟨by decide, (claim_C8 "Hello").1 (by decide)⟩

/-! ## Association-list lemmas -/

theorem lookupA_nil {κ α : Type} [DecidableEq κ] (k : κ) :
    lookupA k ([] : List (κ × α)) = none := rfl

theorem lookupA_cons {κ α : Type} [DecidableEq κ] (k k2 : κ) (v : α)
    (m : List (κ × α)) :
    lookupA k ((k2, v) :: m) = if k2 = k then some v else lookupA k m := rfl

theorem setA_cons {κ α : Type} [DecidableEq κ] (k k2 : κ) (v v2 : α)
    (m : List (κ × α)) :
    setA k v ((k2, v2) :: m) =
      if k2 = k then (k2, v) :: m else (k2, v2) :: setA k v m := rfl

theorem lookupA_setA_self {κ α : Type} [DecidableEq κ] (k : κ) (v : α)
    (m : List (κ × α)) : lookupA k (setA k v m) = some v := by
  induction m with
  | nil => simp [setA, lookupA_cons, lookupA_nil]
  | cons p rest ih =>
    cases p with
    | mk pk pv =>
      rw [setA_cons]
      by_cases h : pk = k
      · rw [if_pos h, lookupA_cons, if_pos h]
      · rw [if_neg h, lookupA_cons, if_neg h]
        exact ih

theorem lookupA_setA_ne {κ α : Type} [DecidableEq κ] (k k2 : κ) (h : k2 ≠ k)
    (v : α) (m : List (κ × α)) : lookupA k (setA k2 v m) = lookupA k m := by
  induction m with
  | nil => simp [setA, lookupA_cons, lookupA_nil, h]
  | cons p rest ih =>
    cases p with
    | mk pk pv =>
      rw [setA_cons]
      by_cases hp : pk = k2
      · rw [if_pos hp, lookupA_cons, lookupA_cons]
        have hk : pk ≠ k := by rw [hp]; exact h
        rw [if_neg hk, if_neg hk]
      · rw [if_neg hp, lookupA_cons, lookupA_cons]
        by_cases hk : pk = k
        · rw [if_pos hk, if_pos hk]
        · rw [if_neg hk, if_neg hk]
          exact ih

theorem lookupA_append {κ α : Type} [DecidableEq κ] (k : κ) (m1 m2 : List (κ × α)) :
    lookupA k (m1 ++ m2) =
      match lookupA k m1 with
      | some v => some v
      | none => lookupA k m2 := by
  induction m1 with
  | nil => simp [lookupA_nil]
  | cons p rest ih =>
    cases p with
    | mk pk pv =>
      rw [List.cons_append, lookupA_cons, lookupA_cons]
      by_cases hk : pk = k
      · rw [if_pos hk, if_pos hk]
      · rw [if_neg hk, if_neg hk]
        exact ih

/-! ## C1: estimation engine -/

theorem buildGroups_go (g : GroupBy) (l : List TaskDoc) (k : String) :
    ∀ m : List (String × List TaskDoc),
      lookupA k (l.foldl (fun m t => pushGroup (groupKeyOf g t) t m) m) =
        match lookupA k m with
        | some gs => some (gs ++ l.filter fun u => groupKeyOf g u = k)
        | none =>
          if (l.filter fun u => groupKeyOf g u = k) = [] then none
          else some (l.filter fun u => groupKeyOf g u = k) := by
  induction l with
  | nil =>
    intro m
    cases h : lookupA k m <;> simp [h]
  | cons t l ih =>
    intro m
    rw [List.foldl_cons]
    rw [ih (pushGroup (groupKeyOf g t) t m)]
    by_cases hk : groupKeyOf g t = k
    · have hfil : (List.filter (fun u => decide (groupKeyOf g u = k)) (t :: l)) =
          t :: List.filter (fun u => decide (groupKeyOf g u = k)) l := by
        simp [List.filter_cons, hk]
      cases hm : lookupA k m with
      | some gs =>
        have : lookupA k (pushGroup (groupKeyOf g t) t m) = some (gs ++ [t]) := by
          rw [pushGroup, hk, hm, lookupA_setA_self]
        rw [this, hfil]
        simp
      | none =>
        have : lookupA k (pushGroup (groupKeyOf g t) t m) = some [t] := by
          rw [pushGroup, hk, hm, lookupA_append, hm]
          simp [lookupA]
        rw [this, hfil]
        simp
    · have hfil : (List.filter (fun u => decide (groupKeyOf g u = k)) (t :: l)) =
          List.filter (fun u => decide (groupKeyOf g u = k)) l := by
        simp [List.filter_cons, hk]
      have hlook : lookupA k (pushGroup (groupKeyOf g t) t m) = lookupA k m := by
        rw [pushGroup]
        cases hgt : lookupA (groupKeyOf g t) m with
        | some gl => exact lookupA_setA_ne k (groupKeyOf g t) hk (gl ++ [t]) m
        | none =>
          rw [lookupA_append]
          cases hm : lookupA k m with
          | some v => rfl
          | none => simp [lookupA, hk]
      rw [hlook, hfil]

theorem lookupA_buildGroups (g : GroupBy) (l : List TaskDoc) (t : TaskDoc)
    (ht : t ∈ l) :
    lookupA (groupKeyOf g t) (buildGroups g l) =
      some (l.filter fun u => groupKeyOf g u = groupKeyOf g t) := by
  rw [buildGroups, buildGroups_go g l (groupKeyOf g t) []]
  have hne : (l.filter fun u => groupKeyOf g u = groupKeyOf g t) ≠ [] := by
    intro hcon
    have : t ∈ l.filter fun u => groupKeyOf g u = groupKeyOf g t :=
      List.mem_filter.mpr ⟨ht, by simp⟩
    rw [hcon] at this
    cases this
  have h0 : lookupA (groupKeyOf g t) ([] : List (String × List TaskDoc)) = none := rfl
  simp only [h0]
  rw [if_neg hne]

theorem median_singleton (v : ℚ) : median [v] = v := by
  simp [median, sortAsc, insertAsc]

theorem madOf_singleton (v : ℚ) : madOf [v] = 0 := by
  simp [madOf, median_singleton, median, sortAsc, insertAsc]

/-- C1: the estimation engine updates every eligible task (positive actual
hours, no estimate) with the estimate of its group — the group being its
fellow eligible tasks with the same caller-selected key; the group estimate
is `median + 0.5 * MAD` rounded up to the nearest multiple of 10 when at
least 100 and otherwise to the nearest integer with a floor of 1; the
per-task estimate is the max of the group estimate and the ceiling of the
task's own actual hours; `median [2,4,4,4,5,5,7,9] = 4.5`; and a singleton
group has MAD 0 and estimate equal to its element rounded per policy. -/
theorem claim_C1 :
    (∀ (g : GroupBy) (tasks : List TaskDoc),
      calculateBellCurveEstimates g tasks = tasks.map fun t =>
        if estElig t then
          applyEstimate
            (((tasks.filter estElig).filter fun u => groupKeyOf g u = groupKeyOf g t).map
              (·.totalActualHours))
            (groupKeyOf g t) t
        else t) ∧
    (∀ (actuals : List ℚ) (key : String) (t : TaskDoc),
      (applyEstimate actuals key t).estimated =
        some ((max (groupEstimate actuals) ⌈t.totalActualHours⌉ : Int) : ℚ)) ∧
    median [2, 4, 4, 4, 5, 5, 7, 9] = 9 / 2 ∧
    (∀ v : ℚ, madOf [v] = 0) ∧
    (∀ raw : ℚ, 0 ≤ raw →
      estRound raw = if 100 ≤ raw then 10 * ⌈raw / 10⌉ else max 1 (jsRound raw)) ∧
    (∀ v : ℚ, groupEstimate [v] = estRound v) := by
  refine ⟨?_, fun _ _ _ => rfl, ?_, madOf_singleton, ?_, ?_⟩
  · intro g tasks
    rw [calculateBellCurveEstimates]
    refine List.map_congr_left fun t ht => ?_
    by_cases he : estElig t = true
    · rw [if_pos he, if_pos he,
        lookupA_buildGroups g (tasks.filter estElig) t (List.mem_filter.mpr ⟨ht, he⟩)]
    · rw [if_neg he, if_neg he]
  · rw [median, if_neg (by simp : ([2, 4, 4, 4, 5, 5, 7, 9] : List ℚ) ≠ [])]
    norm_num [sortAsc, insertAsc]
  · intro raw hnn
    rw [estRound]
    by_cases h100 : 100 ≤ raw
    · rw [if_pos h100, if_pos h100, mul_comm]
    · rw [if_neg h100, if_neg h100]
      have hj : 0 ≤ jsRound raw := by
        rw [jsRound]
        apply Int.le_floor.mpr
        push_cast
        linarith
      by_cases hz : jsRound raw = 0
      · rw [if_pos hz, hz]
        rfl
      · rw [if_neg hz]
        omega
  · intro v
    rw [groupEstimate, median_singleton, madOf_singleton]
    norm_num

theorem claim_C1_witness :
    (0 : ℚ) ≤ 7 / 2 ∧
    estRound (7 / 2) =
      (if 100 ≤ (7 / 2 : ℚ) then 10 * ⌈(7 / 2 : ℚ) / 10⌉ else max 1 (jsRound (7 / 2))) :=
  ⟨by norm_num, claim_C1.2.2.2.2.1 (7 / 2) (by norm_num)⟩

/-! ## C5: metadata merger -/

theorem setA_of_lookup_none {κ α : Type} [DecidableEq κ] (k : κ) (v : α)
    (m : List (κ × α)) (h : lookupA k m = none) : setA k v m = m ++ [(k, v)] := by
  induction m with
  | nil => rfl
  | cons p rest ih =>
    cases p with
    | mk pk pv =>
      rw [lookupA_cons] at h
      by_cases hk : pk = k
      · rw [if_pos hk] at h; cases h
      · rw [if_neg hk] at h
        rw [setA_cons, if_neg hk, List.cons_append, ih h]

theorem buildScoreMap_go (scores : List ScoreRec) :
    ∀ acc : List (Int × ScoreRec),
      (∀ s ∈ scores, lookupA s.tfsId acc = none) →
      (scores.map (·.tfsId)).Nodup →
      scores.foldl (fun m s => setA s.tfsId s m) acc =
        acc ++ scores.map fun s => (s.tfsId, s) := by
  induction scores with
  | nil => intro acc _ _; simp
  | cons s rest ih =>
    intro acc hnone hnd
    rw [List.foldl_cons, setA_of_lookup_none s.tfsId s acc (hnone s (by simp))]
    rw [List.map_cons, List.nodup_cons] at hnd
    rw [ih (acc ++ [(s.tfsId, s)]) ?_ hnd.2]
    · simp
    · intro s2 hs2
      rw [lookupA_append, hnone s2 (by simp [hs2]), lookupA_cons]
      have : s.tfsId ≠ s2.tfsId := by
        intro hcon
        exact hnd.1 (List.mem_map.mpr ⟨s2, hs2, hcon.symm⟩)
      rw [if_neg this, lookupA_nil]

theorem buildScoreMap_nodup (scores : List ScoreRec)
    (h : (scores.map (·.tfsId)).Nodup) :
    buildScoreMap scores = scores.map fun s => (s.tfsId, s) := by
  have := buildScoreMap_go scores [] (fun s _ => rfl) h
  simpa [buildScoreMap] using this

theorem lookupA_eq_none_of_forall {κ α : Type} [DecidableEq κ] (k : κ)
    (m : List (κ × α)) (h : ∀ p ∈ m, p.1 ≠ k) : lookupA k m = none := by
  induction m with
  | nil => rfl
  | cons p rest ih =>
    cases p with
    | mk pk pv =>
      rw [lookupA_cons, if_neg (h (pk, pv) (by simp))]
      exact ih fun p hp => h p (by simp [hp])

theorem forall_of_lookupA_eq_none {κ α : Type} [DecidableEq κ] (k : κ)
    (m : List (κ × α)) (h : lookupA k m = none) : ∀ p ∈ m, p.1 ≠ k := by
  induction m with
  | nil => intro p hp; cases hp
  | cons q rest ih =>
    cases q with
    | mk qk qv =>
      rw [lookupA_cons] at h
      by_cases hk : qk = k
      · rw [if_pos hk] at h; cases h
      · rw [if_neg hk] at h
        intro p hp
        rcases List.mem_cons.mp hp with hp | hp
        · rw [hp]; exact hk
        · exact ih h p hp

theorem lookupA_removeA_ne {κ α : Type} [DecidableEq κ] (k k2 : κ) (h : k ≠ k2)
    (m : List (κ × α)) : lookupA k (removeA k2 m) = lookupA k m := by
  induction m with
  | nil => rfl
  | cons p rest ih =>
    cases p with
    | mk pk pv =>
      by_cases hp : pk = k2
      · have h1 : removeA k2 ((pk, pv) :: rest) = removeA k2 rest := by
          simp [removeA, List.filter_cons, hp]
        rw [h1, ih, lookupA_cons, if_neg (by rw [hp]; exact fun hc => h hc.symm)]
      · have h1 : removeA k2 ((pk, pv) :: rest) = (pk, pv) :: removeA k2 rest := by
          simp [removeA, List.filter_cons, hp]
        rw [h1, lookupA_cons, lookupA_cons]
        by_cases hk : pk = k
        · rw [if_pos hk, if_pos hk]
        · rw [if_neg hk, if_neg hk]
          exact ih

theorem removeA_comm_filter {κ α : Type} [DecidableEq κ] (k : κ)
    (p : κ × α → Bool) (m : List (κ × α)) :
    removeA k (m.filter p) = (removeA k m).filter p := by
  rw [removeA, removeA, List.filter_filter, List.filter_filter]
  refine List.filter_congr fun q _ => ?_
  rw [Bool.and_comm]

/-- The merge loop, characterized: with distinct draft identifiers each
draft consults the original map once, and the leftover is the map minus
every key that occurs among the drafts. -/
theorem mergeLoop_spec (drafts : List DraftTask) :
    ∀ m : List (Int × ScoreRec), (drafts.map (·.tfsId)).Nodup →
      mergeLoop drafts m =
        (drafts.map fun d =>
          match lookupA d.tfsId m with
          | some s => applyScore s d
          | none => d,
         m.filter fun p => p.1 ∉ drafts.map (·.tfsId)) := by
  induction drafts with
  | nil =>
    intro m _
    simp [mergeLoop]
  | cons d rest ih =>
    intro m hnd
    rw [List.map_cons, List.nodup_cons] at hnd
    rw [mergeLoop]
    have hrestlookup : ∀ d2 ∈ rest, d2.tfsId ≠ d.tfsId →
        lookupA d2.tfsId (removeA d.tfsId m) = lookupA d2.tfsId m := by
      intro d2 _ hne
      exact lookupA_removeA_ne d2.tfsId d.tfsId hne m
    cases hl : lookupA d.tfsId m with
    | some s =>
      rw [ih (removeA d.tfsId m) hnd.2]
      have hmaps : (rest.map fun d2 =>
          match lookupA d2.tfsId (removeA d.tfsId m) with
          | some s2 => applyScore s2 d2
          | none => d2) =
          rest.map fun d2 =>
            match lookupA d2.tfsId m with
            | some s2 => applyScore s2 d2
            | none => d2 := by
        refine List.map_congr_left fun d2 hd2 => ?_
        have hne : d2.tfsId ≠ d.tfsId := by
          intro hcon
          exact hnd.1 (List.mem_map.mpr ⟨d2, hd2, hcon⟩)
        rw [hrestlookup d2 hd2 hne]
      have hleft : ((removeA d.tfsId m).filter fun p =>
          p.1 ∉ rest.map (·.tfsId)) =
          m.filter fun p => p.1 ∉ (d :: rest).map (·.tfsId) := by
        rw [removeA, List.filter_filter]
        refine List.filter_congr fun q _ => ?_
        simp only [List.map_cons, List.mem_cons, decide_not]
        rw [Bool.and_comm]
        simp [not_or, Decidable.not_not]
      simp only [List.map_cons, hl, hmaps, hleft]
    | none =>
      rw [ih m hnd.2]
      have hleft : (m.filter fun p => p.1 ∉ rest.map (·.tfsId)) =
          m.filter fun p => p.1 ∉ (d :: rest).map (·.tfsId) := by
        refine List.filter_congr fun q hq => ?_
        have : q.1 ≠ d.tfsId := forall_of_lookupA_eq_none d.tfsId m hl q hq
        simp [this, List.mem_cons]
      simp only [List.map_cons, hl, hleft]

theorem lookupA_map_pair (scores : List ScoreRec) (k : Int) :
    lookupA k (scores.map fun s => (s.tfsId, s)) =
      scores.find? fun s => s.tfsId = k := by
  induction scores with
  | nil => rfl
  | cons s rest ih =>
    rw [List.map_cons, lookupA_cons, List.find?_cons]
    by_cases hk : s.tfsId = k
    · simp [hk]
    · rw [if_neg hk]
      have hdec : (decide (s.tfsId = k)) = false := by simp [hk]
      simp only [hdec]
      exact ih

theorem mem_insertDesc (x y : DraftTask) (l : List DraftTask) :
    y ∈ insertDesc x l ↔ y = x ∨ y ∈ l := by
  induction l with
  | nil => simp [insertDesc]
  | cons z l ih =>
    rw [insertDesc]
    by_cases h : x.tfsId < z.tfsId
    · rw [if_pos h]
      simp only [List.mem_cons, ih]
      tauto
    · rw [if_neg h]
      simp only [List.mem_cons]

theorem pairwise_insertDesc (x : DraftTask) (l : List DraftTask)
    (h : l.Pairwise fun a b => b.tfsId ≤ a.tfsId) :
    (insertDesc x l).Pairwise fun a b => b.tfsId ≤ a.tfsId := by
  induction l with
  | nil => simp [insertDesc]
  | cons z l ih =>
    rw [List.pairwise_cons] at h
    rw [insertDesc]
    by_cases hx : x.tfsId < z.tfsId
    · rw [if_pos hx]
      rw [List.pairwise_cons]
      refine ⟨?_, ih h.2⟩
      intro y hy
      rcases (mem_insertDesc x y l).mp hy with hy | hy
      · rw [hy]; exact le_of_lt hx
      · exact h.1 y hy
    · rw [if_neg hx]
      push_neg at hx
      rw [List.pairwise_cons]
      refine ⟨?_, List.pairwise_cons.mpr h⟩
      intro y hy
      rcases List.mem_cons.mp hy with hy | hy
      · rw [hy]; exact hx
      · exact le_trans (h.1 y hy) hx

theorem sortDesc_pairwise (l : List DraftTask) :
    (sortDesc l).Pairwise fun a b => b.tfsId ≤ a.tfsId := by
  induction l with
  | nil => simp [sortDesc]
  | cons x l ih => exact pairwise_insertDesc x (sortDesc l) ih

/-- C5: with distinct identifiers on each side, each draft matching a
metadata record has its title overridden when the metadata title is
non-empty and its estimated/quality set unconditionally from the record,
each record is consumed at most once, every unconsumed record becomes a
standalone task with no time entries, zero actual hours and empty
breakdowns, and the merge output is sorted by identifier descending. -/
theorem claim_C5 :
    (∀ (drafts : List DraftTask) (scores : List ScoreRec),
      (drafts.map (·.tfsId)).Nodup → (scores.map (·.tfsId)).Nodup →
      mergeData drafts scores =
        (drafts.map fun d =>
          match scores.find? (fun s => s.tfsId = d.tfsId) with
          | some s => applyScore s d
          | none => d) ++
        ((scores.filter fun s => s.tfsId ∉ drafts.map (·.tfsId)).map standaloneTask)) ∧
    (∀ (rows : List RawRow) (scoreRows : List MetaRow),
      (getMergedData rows scoreRows).Pairwise fun a b => b.tfsId ≤ a.tfsId) := by
  constructor
  · intro drafts scores hd hs
    rw [mergeData, buildScoreMap_nodup scores hs, mergeLoop_spec drafts _ hd]
    refine congrArg₂ (· ++ ·) ?_ ?_
    · exact List.map_congr_left fun d _ => by rw [lookupA_map_pair]
    · rw [List.filter_map]
      rw [List.map_map]
      rfl
  · intro rows scoreRows
    exact sortDesc_pairwise _

/-! ## C6: totals conservation and breakdown invariant -/

theorem sum_values_bumpA {κ : Type} [DecidableEq κ] (k : κ) (q : ℚ)
    (m : List (κ × ℚ)) :
    ((bumpA k q m).map (·.2)).sum = (m.map (·.2)).sum + q := by
  induction m with
  | nil => simp [bumpA, setA, lookupA_nil]
  | cons p rest ih =>
    cases p with
    | mk k2 v =>
      rw [bumpA, lookupA_cons]
      by_cases hk : k2 = k
      · rw [if_pos hk, setA_cons, if_pos hk]
        simp only [Option.getD_some, List.map_cons, List.sum_cons]
        ring
      · rw [if_neg hk, setA_cons, if_neg hk]
        simp only [List.map_cons, List.sum_cons]
        rw [show setA k ((lookupA k rest).getD 0 + q) rest = bumpA k q rest from rfl, ih]
        ring

theorem addEntry_total (r : RawRow) (task : DraftTask) :
    (addEntryToTask r task).totalActualHours =
      task.totalActualHours + r.workHrs.getD 0 := by
  rw [addEntryToTask]
  cases r.workDate <;> (dsimp only; split_ifs <;> simp [entryOf])

theorem addEntry_breakdown (r : RawRow) (task : DraftTask) :
    (addEntryToTask r task).developerBreakdown =
      bumpA (devName r) (r.workHrs.getD 0) task.developerBreakdown := by
  rw [addEntryToTask]
  cases r.workDate <;> (dsimp only; split_ifs <;> simp [entryOf, devName])

theorem containsA_append_self {κ α : Type} [DecidableEq κ] (k : κ) (v : α)
    (m : List (κ × α)) : containsA k (m ++ [(k, v)]) = true := by
  rw [containsA, lookupA_append]
  cases h : lookupA k m with
  | some w => simp
  | none => simp [lookupA_cons, lookupA_nil]

theorem sum_modifyA {κ : Type} [DecidableEq κ] (k : κ) (f : DraftTask → DraftTask)
    (δ : ℚ) (hf : ∀ t, (f t).totalActualHours = t.totalActualHours + δ) :
    ∀ m : List (κ × DraftTask), containsA k m = true →
      ((modifyA k f m).map (·.2.totalActualHours)).sum =
        (m.map (·.2.totalActualHours)).sum + δ := by
  intro m
  induction m with
  | nil => intro h; simp [containsA, lookupA_nil] at h
  | cons p rest ih =>
    intro h
    cases p with
    | mk k2 v =>
      rw [modifyA]
      by_cases hk : k2 = k
      · rw [if_pos hk]
        simp only [List.map_cons, List.sum_cons, hf v]
        ring
      · rw [if_neg hk]
        simp only [List.map_cons, List.sum_cons]
        rw [containsA, lookupA_cons, if_neg hk] at h
        rw [ih h]
        ring

theorem stepTask_sum (key : MapKey) (fresh : DraftTask) (r : RawRow)
    (m : List (MapKey × DraftTask)) (hfresh : fresh.totalActualHours = 0) :
    ((stepTask key fresh r m).map (·.2.totalActualHours)).sum =
      (m.map (·.2.totalActualHours)).sum + r.workHrs.getD 0 := by
  rw [stepTask]
  by_cases hc : containsA key m = true
  · rw [if_pos hc]
    exact sum_modifyA key (addEntryToTask r) (r.workHrs.getD 0)
      (fun t => addEntry_total r t) m hc
  · rw [if_neg hc]
    rw [sum_modifyA key (addEntryToTask r) (r.workHrs.getD 0)
      (fun t => addEntry_total r t) (m ++ [(key, fresh)])
      (containsA_append_self key fresh m)]
    simp [hfresh]

theorem processRow_sum (allRows : List RawRow) (st : GroupState) (r : RawRow)
    (hk : keptRow r = true) :
    (((processRow allRows st r).taskMap).map (·.2.totalActualHours)).sum =
      ((st.taskMap).map (·.2.totalActualHours)).sum + r.workHrs.getD 0 := by
  rw [processRow]
  rw [hk]
  simp only [Bool.not_true, Bool.false_eq_true, if_false]
  cases hex : extractTfsId r.narrative with
  | none => exact stepTask_sum _ _ r st.taskMap rfl
  | some t =>
    dsimp only
    by_cases hdc : devCountJs allRows t = 1
    · rw [if_pos hdc]
      exact stepTask_sum _ _ r st.taskMap rfl
    · rw [if_neg hdc]
      exact stepTask_sum _ _ r st.taskMap rfl

theorem processRow_skip (allRows : List RawRow) (st : GroupState) (r : RawRow)
    (hk : keptRow r = false) : processRow allRows st r = st := by
  rw [processRow, hk]
  rfl

theorem grouper_sum (allRows : List RawRow) (rest : List RawRow) :
    ∀ st : GroupState,
      (((rest.foldl (processRow allRows) st).taskMap).map (·.2.totalActualHours)).sum =
        ((st.taskMap).map (·.2.totalActualHours)).sum +
          ((rest.filter keptRow).map fun r => r.workHrs.getD 0).sum := by
  induction rest with
  | nil => intro st; simp
  | cons r rest ih =>
    intro st
    rw [List.foldl_cons, List.filter_cons]
    cases hk : keptRow r with
    | true =>
      simp only [if_true, List.map_cons, List.sum_cons]
      rw [ih (processRow allRows st r), processRow_sum allRows st r hk]
      ring
    | false =>
      simp only [Bool.false_eq_true, if_false]
      rw [processRow_skip allRows st r hk]
      exact ih st

theorem mem_modifyA_pred {κ : Type} [DecidableEq κ] (k : κ)
    (f : DraftTask → DraftTask) (P : DraftTask → Prop)
    (hf : ∀ t, P t → P (f t)) :
    ∀ m : List (κ × DraftTask), (∀ p ∈ m, P p.2) →
      ∀ p ∈ modifyA k f m, P p.2 := by
  intro m
  induction m with
  | nil => intro _ p hp; cases hp
  | cons q rest ih =>
    intro hm p hp
    cases q with
    | mk qk qv =>
      rw [modifyA] at hp
      by_cases hk : qk = k
      · rw [if_pos hk] at hp
        rcases List.mem_cons.mp hp with hp | hp
        · rw [hp]
          exact hf qv (hm (qk, qv) (by simp))
        · exact hm p (by simp [hp])
      · rw [if_neg hk] at hp
        rcases List.mem_cons.mp hp with hp | hp
        · rw [hp]; exact hm (qk, qv) (by simp)
        · exact ih (fun q hq => hm q (by simp [hq])) p hp

theorem addEntry_bdOK (r : RawRow) (task : DraftTask)
    (h : task.totalActualHours = (task.developerBreakdown.map (·.2)).sum) :
    (addEntryToTask r task).totalActualHours =
      ((addEntryToTask r task).developerBreakdown.map (·.2)).sum := by
  rw [addEntry_total, addEntry_breakdown, sum_values_bumpA, h]

theorem stepTask_bdOK (key : MapKey) (fresh : DraftTask) (r : RawRow)
    (m : List (MapKey × DraftTask))
    (hfresh : fresh.totalActualHours = (fresh.developerBreakdown.map (·.2)).sum)
    (hm : ∀ p ∈ m, p.2.totalActualHours = (p.2.developerBreakdown.map (·.2)).sum) :
    ∀ p ∈ stepTask key fresh r m,
      p.2.totalActualHours = (p.2.developerBreakdown.map (·.2)).sum := by
  rw [stepTask]
  refine mem_modifyA_pred key (addEntryToTask r) _ (fun t ht => addEntry_bdOK r t ht) _ ?_
  by_cases hc : containsA key m = true
  · rw [if_pos hc]; exact hm
  · rw [if_neg hc]
    intro p hp
    rcases List.mem_append.mp hp with hp | hp
    · exact hm p hp
    · rcases List.mem_singleton.mp hp with rfl
      exact hfresh

theorem grouper_bdOK (allRows : List RawRow) (rest : List RawRow) :
    ∀ st : GroupState,
      (∀ p ∈ st.taskMap, p.2.totalActualHours = (p.2.developerBreakdown.map (·.2)).sum) →
      ∀ p ∈ (rest.foldl (processRow allRows) st).taskMap,
        p.2.totalActualHours = (p.2.developerBreakdown.map (·.2)).sum := by
  induction rest with
  | nil => intro st h; exact h
  | cons r rest ih =>
    intro st h
    rw [List.foldl_cons]
    refine ih (processRow allRows st r) ?_
    cases hk : keptRow r with
    | false => rw [processRow_skip allRows st r hk]; exact h
    | true =>
      rw [processRow, hk]
      simp only [Bool.not_true, Bool.false_eq_true, if_false]
      cases hex : extractTfsId r.narrative with
      | none => exact stepTask_bdOK _ _ r st.taskMap (by simp [newDraft]) h
      | some t =>
        dsimp only
        by_cases hdc : devCountJs allRows t = 1
        · rw [if_pos hdc]
          exact stepTask_bdOK _ _ r st.taskMap (by simp [newDraft]) h
        · rw [if_neg hdc]
          exact stepTask_bdOK _ _ r st.taskMap (by simp [newDraft]) h

theorem foldl_add_workHrs (entries : List TimeEntry) :
    ∀ s : ℚ, entries.foldl (fun s e => s + e.workHrs) s =
      s + (entries.map (·.workHrs)).sum := by
  induction entries with
  | nil => intro s; simp
  | cons e rest ih =>
    intro s
    rw [List.foldl_cons, ih, List.map_cons, List.sum_cons]
    ring

theorem foldl_bump_sum (entries : List TimeEntry) :
    ∀ m : List (String × ℚ),
      ((entries.foldl
          (fun m e => bumpA (e.firstName ++ " " ++ e.lastName) e.workHrs m) m).map
        (·.2)).sum = (m.map (·.2)).sum + (entries.map (·.workHrs)).sum := by
  induction entries with
  | nil => intro m; simp
  | cons e rest ih =>
    intro m
    rw [List.foldl_cons, ih, sum_values_bumpA, List.map_cons, List.sum_cons]
    ring

/-- C6: the grouper conserves hours — the total actual hours over all
produced draft tasks equal the summed `WorkHrs` of the kept rows — and both
for every produced draft task and after every `recalculateTotals` call, the
task total equals the sum of its developer-breakdown values. -/
theorem claim_C6 :
    (∀ rows : List RawRow,
      ((parseTimesheetData rows).map (·.totalActualHours)).sum =
        ((rows.filter keptRow).map fun r => r.workHrs.getD 0).sum) ∧
    (∀ rows : List RawRow, ∀ t ∈ parseTimesheetData rows,
      t.totalActualHours = (t.developerBreakdown.map (·.2)).sum) ∧
    (∀ t : DraftTask, (recalculateTotals t).totalActualHours =
      ((recalculateTotals t).developerBreakdown.map (·.2)).sum) := by
  refine ⟨?_, ?_, ?_⟩
  · intro rows
    rw [parseTimesheetData, List.map_map]
    have := grouper_sum rows rows ⟨[], -1⟩
    simpa using this
  · intro rows t ht
    rw [parseTimesheetData] at ht
    rcases List.mem_map.mp ht with ⟨p, hp, rfl⟩
    exact grouper_bdOK rows rows ⟨[], -1⟩ (fun q hq => by cases hq) p hp
  · intro t
    rw [recalculateTotals]
    simp only
    rw [foldl_add_workHrs, foldl_bump_sum]
    simp

theorem parse_single_orphan :
    parseTimesheetData
        [⟨7, "A", "B", "t", some "2025-01-01", some 4, "n", "c", "d", none, "w"⟩] =
      [⟨-1, none, "w - A B (2025-01-01)", true, none, none, none,
        [⟨7, "B", "A", "t", some "2025-01-01", some "2025-01-01", 4, "n", "c", "d"⟩],
        4, [("A B", 4)], [("A B", [("2025-01-01", 4)])]⟩] := by
  have hkept : keptRow ⟨7, "A", "B", "t", some "2025-01-01", some 4, "n", "c", "d", none, "w"⟩ = true := by
    decide
  have hex : extractTfsId "n" = none := by decide
  rw [parseTimesheetData, List.foldl_cons, List.foldl_nil, processRow, hkept]
  dsimp only
  rw [hex]
  dsimp only
  simp [stepTask, containsA, lookupA_nil, modifyA, addEntryToTask, entryOf,
    bumpA, bumpNested, setA, lookupA_cons, newDraft, orphanTitle, devName,
    jsOrStr]

theorem claim_C6_witness :
    (⟨-1, none, "w - A B (2025-01-01)", true, none, none, none,
        [⟨7, "B", "A", "t", some "2025-01-01", some "2025-01-01", 4, "n", "c", "d"⟩],
        4, [("A B", 4)], [("A B", [("2025-01-01", 4)])]⟩ : DraftTask).totalActualHours =
      ((⟨-1, none, "w - A B (2025-01-01)", true, none, none, none,
          [⟨7, "B", "A", "t", some "2025-01-01", some "2025-01-01", 4, "n", "c", "d"⟩],
          4, [("A B", 4)], [("A B", [("2025-01-01", 4)])]⟩ :
        DraftTask).developerBreakdown.map (·.2)).sum := by
  refine claim_C6.2.1
    [⟨7, "A", "B", "t", some "2025-01-01", some 4, "n", "c", "d", none, "w"⟩] _ ?_
  rw [parse_single_orphan]
  exact List.mem_singleton.mpr rfl

/-! ## Further association-list lemmas, toward the grouper -/

theorem containsA_iff_exists {κ α : Type} [DecidableEq κ] (k : κ)
    (m : List (κ × α)) : containsA k m = true ↔ ∃ v, (k, v) ∈ m := by
  induction m with
  | nil => simp [containsA, lookupA_nil]
  | cons p rest ih =>
    cases p with
    | mk pk pv =>
      rw [containsA, lookupA_cons]
      by_cases hk : pk = k
      · subst hk
        simp
      · rw [if_neg hk, ← containsA]
        rw [ih]
        constructor
        · intro ⟨v, hv⟩
          exact ⟨v, List.mem_cons_of_mem _ hv⟩
        · intro ⟨v, hv⟩
          rcases List.mem_cons.mp hv with heq | hv2
          · exfalso
            apply hk
            have := congrArg Prod.fst heq
            exact this.symm
          · exact ⟨v, hv2⟩

theorem mem_modifyA_of_ne {κ α : Type} [DecidableEq κ] {k k2 : κ} {v : α}
    (f : α → α) (m : List (κ × α)) (hmem : (k2, v) ∈ m) (hne : k2 ≠ k) :
    (k2, v) ∈ modifyA k f m := by
  induction m with
  | nil => cases hmem
  | cons p rest ih =>
    cases p with
    | mk pk pv =>
      rw [modifyA]
      rcases List.mem_cons.mp hmem with heq | hmem2
      · cases heq
        rw [if_neg hne]
        exact List.mem_cons_self _ _
      · by_cases hk : pk = k
        · rw [if_pos hk]
          exact List.mem_cons_of_mem _ hmem2
        · rw [if_neg hk]
          exact List.mem_cons_of_mem _ (ih hmem2)

theorem mem_modifyA_elim {κ α : Type} [DecidableEq κ] (k : κ) (f : α → α)
    (m : List (κ × α)) (p : κ × α) (hp : p ∈ modifyA k f m) :
    p ∈ m ∨ ∃ v : α, (k, v) ∈ m ∧ p = (k, f v) := by
  induction m with
  | nil => cases hp
  | cons q rest ih =>
    cases q with
    | mk qk qv =>
      rw [modifyA] at hp
      by_cases hk : qk = k
      · rw [if_pos hk] at hp
        rcases List.mem_cons.mp hp with heq | hp2
        · subst hk
          exact Or.inr ⟨qv, List.mem_cons_self _ _, heq⟩
        · exact Or.inl (List.mem_cons_of_mem _ hp2)
      · rw [if_neg hk] at hp
        rcases List.mem_cons.mp hp with heq | hp2
        · exact Or.inl (by rw [heq]; exact List.mem_cons_self _ _)
        · rcases ih hp2 with h | ⟨v, hv, hpv⟩
          · exact Or.inl (List.mem_cons_of_mem _ h)
          · exact Or.inr ⟨v, List.mem_cons_of_mem _ hv, hpv⟩

theorem containsA_modifyA {κ α : Type} [DecidableEq κ] (k k2 : κ) (f : α → α)
    (m : List (κ × α)) : containsA k2 (modifyA k f m) = containsA k2 m := by
  induction m with
  | nil => rfl
  | cons q rest ih =>
    cases q with
    | mk qk qv =>
      rw [modifyA]
      by_cases hk : qk = k
      · rw [if_pos hk, containsA, containsA, lookupA_cons, lookupA_cons]
        by_cases hk2 : qk = k2
        · rw [if_pos hk2, if_pos hk2]
          rfl
        · rw [if_neg hk2, if_neg hk2]
      · rw [if_neg hk, containsA, containsA, lookupA_cons, lookupA_cons]
        by_cases hk2 : qk = k2
        · rw [if_pos hk2, if_pos hk2]
        · rw [if_neg hk2, if_neg hk2]
          exact ih

theorem containsA_append_single {κ α : Type} [DecidableEq κ] (k k2 : κ) (v : α)
    (m : List (κ × α)) :
    containsA k2 (m ++ [(k, v)]) = (containsA k2 m || decide (k = k2)) := by
  rw [containsA, lookupA_append]
  cases h : lookupA k2 m with
  | some w => simp [containsA, h]
  | none =>
    rw [lookupA_cons, lookupA_nil]
    by_cases hk : k = k2
    · simp [containsA, h, hk]
    · simp [containsA, h, hk]

theorem map_fst_modifyA {κ α : Type} [DecidableEq κ] (k : κ) (f : α → α)
    (m : List (κ × α)) : (modifyA k f m).map Prod.fst = m.map Prod.fst := by
  induction m with
  | nil => rfl
  | cons q rest ih =>
    cases q with
    | mk qk qv =>
      rw [modifyA]
      by_cases hk : qk = k
      · rw [if_pos hk]
        simp
      · rw [if_neg hk]
        simp only [List.map_cons]
        rw [ih]

theorem map_snd_modifyA {κ α β : Type} [DecidableEq κ] (k : κ) (f : α → α)
    (g : α → β) (hg : ∀ v, g (f v) = g v) (m : List (κ × α)) :
    (modifyA k f m).map (fun p => g p.2) = m.map fun p => g p.2 := by
  induction m with
  | nil => rfl
  | cons q rest ih =>
    cases q with
    | mk qk qv =>
      rw [modifyA]
      by_cases hk : qk = k
      · rw [if_pos hk]
        simp only [List.map_cons, hg]
      · rw [if_neg hk]
        simp only [List.map_cons]
        rw [ih]

theorem filter_length_modifyA {κ α : Type} [DecidableEq κ] (k : κ) (f : α → α)
    (qb : α → Bool) (hf : ∀ v, qb (f v) = qb v) (m : List (κ × α)) :
    ((modifyA k f m).filter fun p => qb p.2).length =
      (m.filter fun p => qb p.2).length := by
  induction m with
  | nil => rfl
  | cons q rest ih =>
    cases q with
    | mk qk qv =>
      rw [modifyA]
      by_cases hk : qk = k
      · rw [if_pos hk]
        rw [List.filter_cons, List.filter_cons]
        simp only [hf]
        cases qb qv <;> simp
      · rw [if_neg hk]
        rw [List.filter_cons, List.filter_cons]
        cases qb qv <;> simp [ih]

/-! ## Projections of the per-row accumulation -/

theorem addEntry_tfsId (r : RawRow) (task : DraftTask) :
    (addEntryToTask r task).tfsId = task.tfsId := by
  rw [addEntryToTask]
  cases r.workDate <;> (dsimp only; split_ifs <;> rfl)

theorem addEntry_orig (r : RawRow) (task : DraftTask) :
    (addEntryToTask r task).originalTfsId = task.originalTfsId := by
  rw [addEntryToTask]
  cases r.workDate <;> (dsimp only; split_ifs <;> rfl)

theorem addEntry_flag (r : RawRow) (task : DraftTask) :
    (addEntryToTask r task).tfsIdNotEntered = task.tfsIdNotEntered := by
  rw [addEntryToTask]
  cases r.workDate <;> (dsimp only; split_ifs <;> rfl)

theorem addEntry_entries (r : RawRow) (task : DraftTask) :
    (addEntryToTask r task).timeEntries = task.timeEntries ++ [entryOf r] := by
  rw [addEntryToTask]
  cases r.workDate <;> (dsimp only; split_ifs <;> rfl)

theorem addEntry_title_ne (r : RawRow) (task : DraftTask) (h : task.title ≠ "") :
    (addEntryToTask r task).title = task.title := by
  rw [addEntryToTask]
  cases r.workDate <;>
    (dsimp only; split_ifs with hc <;> first
      | rfl
      | (exfalso
         simp only [Bool.and_eq_true, decide_eq_true_eq] at hc
         exact h hc.1))

theorem ne_empty_of_data_ne_nil (s : String) (h : s.data ≠ []) : s ≠ "" := by
  intro hcon
  rw [hcon] at h
  exact h rfl

theorem splitTitle_ne_empty (t : Nat) (d : String) : splitTitle t d ≠ "" := by
  apply ne_empty_of_data_ne_nil
  rw [splitTitle]
  rw [String.data_append, String.data_append, String.data_append]
  simp

theorem orphanTitle_ne_empty (r : RawRow) : orphanTitle r ≠ "" := by
  apply ne_empty_of_data_ne_nil
  rw [orphanTitle]
  rw [String.data_append, String.data_append, String.data_append,
    String.data_append, String.data_append]
  intro hcon
  have := congrArg List.length hcon
  simp [List.length_append] at this

/-! ## First pass: developers per identifier -/

theorem mem_addUnique {α : Type} [DecidableEq α] (l : List α) (x y : α) :
    y ∈ addUnique l x ↔ y ∈ l ∨ y = x := by
  rw [addUnique]
  by_cases h : x ∈ l
  · rw [if_pos h]
    constructor
    · exact Or.inl
    · intro hy
      rcases hy with hy | hy
      · exact hy
      · rw [hy]; exact h
  · rw [if_neg h]
    simp

theorem nodup_addUnique {α : Type} [DecidableEq α] (l : List α) (x : α)
    (h : l.Nodup) : (addUnique l x).Nodup := by
  rw [addUnique]
  by_cases hx : x ∈ l
  · rw [if_pos hx]; exact h
  · rw [if_neg hx]
    rw [List.nodup_append]
    exact ⟨h, List.nodup_singleton x, by simpa using fun hcon => hx hcon⟩

theorem mem_foldl_addUnique {α : Type} [DecidableEq α] (l : List α) :
    ∀ (acc : List α) (y : α), y ∈ l.foldl addUnique acc ↔ y ∈ acc ∨ y ∈ l := by
  induction l with
  | nil => intro acc y; simp
  | cons x l ih =>
    intro acc y
    rw [List.foldl_cons, ih, mem_addUnique]
    simp only [List.mem_cons]
    tauto

theorem nodup_foldl_addUnique {α : Type} [DecidableEq α] (l : List α) :
    ∀ acc : List α, acc.Nodup → (l.foldl addUnique acc).Nodup := by
  induction l with
  | nil => intro acc h; exact h
  | cons x l ih =>
    intro acc h
    rw [List.foldl_cons]
    exact ih _ (nodup_addUnique acc x h)

theorem foldl_addUnique_ne_nil {α : Type} [DecidableEq α] (l acc : List α)
    (h : l ≠ []) : l.foldl addUnique acc ≠ [] := by
  cases l with
  | nil => exact absurd rfl h
  | cons x l =>
    intro hcon
    have : x ∈ (x :: l).foldl addUnique acc := by
      rw [mem_foldl_addUnique]
      exact Or.inr (by simp)
    rw [hcon] at this
    cases this

theorem lookupA_addDev_self (m : List (Nat × List String)) (t : Nat) (d : String) :
    lookupA t (addDev m t d) = some (addUnique ((lookupA t m).getD []) d) := by
  rw [addDev]
  cases h : lookupA t m with
  | some devs => rw [lookupA_setA_self]; simp
  | none =>
    rw [lookupA_append, h, lookupA_cons, if_pos rfl]
    simp [addUnique]

theorem lookupA_addDev_ne (m : List (Nat × List String)) (t t2 : Nat) (d : String)
    (h : t2 ≠ t) : lookupA t (addDev m t2 d) = lookupA t m := by
  rw [addDev]
  cases h2 : lookupA t2 m with
  | some devs => exact lookupA_setA_ne t t2 h _ m
  | none =>
    rw [lookupA_append]
    cases h3 : lookupA t m with
    | some v => rfl
    | none => rw [lookupA_cons, if_neg h, lookupA_nil]

theorem tfsDevCount_go (rest : List RawRow) :
    ∀ (acc : List (Nat × List String)) (t : Nat),
      lookupA t (rest.foldl
          (fun m r =>
            if keptRow r then
              match extractTfsId r.narrative with
              | some t2 => addDev m t2 (devName r)
              | none => m
            else m)
          acc) =
        match lookupA t acc with
        | some devs =>
          some ((((rest.filter keptRow).filter fun r =>
            extractTfsId r.narrative = some t).map devName).foldl addUnique devs)
        | none =>
          if (((rest.filter keptRow).filter fun r =>
              extractTfsId r.narrative = some t).map devName) = [] then none
          else
            some ((((rest.filter keptRow).filter fun r =>
              extractTfsId r.narrative = some t).map devName).foldl addUnique []) := by
  induction rest with
  | nil =>
    intro acc t
    cases h : lookupA t acc <;> simp [h]
  | cons r rest ih =>
    intro acc t
    rw [List.foldl_cons, List.filter_cons]
    cases hk : keptRow r with
    | false =>
      simp only [Bool.false_eq_true, if_false]
      exact ih acc t
    | true =>
      simp only [if_true]
      cases hex : extractTfsId r.narrative with
      | none =>
        have hfil : (List.filter (fun r2 => decide (extractTfsId r2.narrative = some t))
            (r :: rest.filter keptRow)) =
            (rest.filter keptRow).filter fun r2 =>
              extractTfsId r2.narrative = some t := by
          rw [List.filter_cons]
          simp [hex]
        rw [hfil]
        exact ih acc t
      | some t0 =>
        by_cases ht : t0 = t
        · subst ht
          have hfil : (List.filter (fun r2 => decide (extractTfsId r2.narrative = some t0))
              (r :: rest.filter keptRow)) =
              r :: ((rest.filter keptRow).filter fun r2 =>
                extractTfsId r2.narrative = some t0) := by
            rw [List.filter_cons]
            simp [hex]
          rw [hfil, ih (addDev acc t0 (devName r)) t0,
            lookupA_addDev_self acc t0 (devName r)]
          cases h : lookupA t0 acc with
          | some devs => simp [h]
          | none => simp [h]
        · have hne : ¬ (extractTfsId r.narrative = some t) := by
            rw [hex]
            simp [ht]
          have hfil : (List.filter (fun r2 => decide (extractTfsId r2.narrative = some t))
              (r :: rest.filter keptRow)) =
              (rest.filter keptRow).filter fun r2 =>
                extractTfsId r2.narrative = some t := by
            rw [List.filter_cons]
            simp [hne]
          rw [hfil, ih (addDev acc t0 (devName r)) t,
            lookupA_addDev_ne acc t t0 (devName r) ht]

theorem lookupA_tfsDevCount (rows : List RawRow) (t : Nat) :
    lookupA t (tfsDevCount rows) =
      if (((rows.filter keptRow).filter fun r =>
          extractTfsId r.narrative = some t).map devName) = [] then none
      else
        some ((((rows.filter keptRow).filter fun r =>
          extractTfsId r.narrative = some t).map devName).foldl addUnique []) := by
  rw [tfsDevCount]
  rw [tfsDevCount_go rows [] t]
  rfl

theorem devCount_bridge (rows : List RawRow) (t : Nat) :
    devCountOf rows t = 1 ↔
      ((∃ r ∈ rows.filter keptRow, extractTfsId r.narrative = some t) ∧
       ∀ r1 ∈ rows.filter keptRow, ∀ r2 ∈ rows.filter keptRow,
         extractTfsId r1.narrative = some t → extractTfsId r2.narrative = some t →
           devName r1 = devName r2) := by
  rw [devCountOf, lookupA_tfsDevCount]
  by_cases hnil : (((rows.filter keptRow).filter fun r =>
      extractTfsId r.narrative = some t).map devName) = []
  · rw [if_pos hnil]
    simp only [Option.getD_none, List.length_nil]
    constructor
    · intro hcon; cases hcon
    · intro ⟨⟨r, hr, hext⟩, _⟩
      exfalso
      have : devName r ∈ (((rows.filter keptRow).filter fun r =>
          extractTfsId r.narrative = some t).map devName) :=
        List.mem_map.mpr ⟨r, List.mem_filter.mpr ⟨hr, by simp [hext]⟩, rfl⟩
      rw [hnil] at this
      cases this
  · rw [if_neg hnil]
    simp only [Option.getD_some]
    have hmem : ∀ d, d ∈ (((rows.filter keptRow).filter fun r =>
        extractTfsId r.narrative = some t).map devName).foldl addUnique [] ↔
        ∃ r ∈ rows.filter keptRow, extractTfsId r.narrative = some t ∧ devName r = d := by
      intro d
      rw [mem_foldl_addUnique]
      simp only [List.mem_nil_iff, false_or, List.mem_map, List.mem_filter,
        decide_eq_true_eq]
      constructor
      · intro ⟨r, ⟨hr, hext⟩, hd⟩
        exact ⟨r, hr, hext, hd⟩
      · intro ⟨r, hr, hext, hd⟩
        exact ⟨r, ⟨hr, hext⟩, hd⟩
    constructor
    · intro hlen
      rcases List.length_eq_one.mp hlen with ⟨d, hd⟩
      have hdmem : d ∈ (((rows.filter keptRow).filter fun r =>
          extractTfsId r.narrative = some t).map devName).foldl addUnique [] := by
        rw [hd]; simp
      rcases (hmem d).mp hdmem with ⟨r, hr, hext, hdev⟩
      refine ⟨⟨r, hr, hext⟩, ?_⟩
      intro r1 hr1 r2 hr2 hext1 hext2
      have h1 : devName r1 ∈ (((rows.filter keptRow).filter fun r =>
          extractTfsId r.narrative = some t).map devName).foldl addUnique [] :=
        (hmem _).mpr ⟨r1, hr1, hext1, rfl⟩
      have h2 : devName r2 ∈ (((rows.filter keptRow).filter fun r =>
          extractTfsId r.narrative = some t).map devName).foldl addUnique [] :=
        (hmem _).mpr ⟨r2, hr2, hext2, rfl⟩
      rw [hd] at h1 h2
      rcases List.mem_singleton.mp h1 with rfl
      rcases List.mem_singleton.mp h2 with h2
      rw [h2]
    · intro ⟨⟨r0, hr0, hext0⟩, hsame⟩
      have hnodup : ((((rows.filter keptRow).filter fun r =>
          extractTfsId r.narrative = some t).map devName).foldl addUnique []).Nodup :=
        nodup_foldl_addUnique _ [] (List.nodup_nil)
      have hne : (((rows.filter keptRow).filter fun r =>
          extractTfsId r.narrative = some t).map devName).foldl addUnique [] ≠ [] :=
        foldl_addUnique_ne_nil _ [] hnil
      have hall : ∀ d ∈ (((rows.filter keptRow).filter fun r =>
          extractTfsId r.narrative = some t).map devName).foldl addUnique [],
          d = devName r0 := by
        intro d hd
        rcases (hmem d).mp hd with ⟨r, hr, hext, hdev⟩
        rw [← hdev]
        exact hsame r hr r0 hr0 hext hext0
      cases hfold : (((rows.filter keptRow).filter fun r =>
          extractTfsId r.narrative = some t).map devName).foldl addUnique [] with
      | nil => exact absurd hfold hne
      | cons a l =>
        rw [hfold] at hall hnodup
        have hl : l = [] := by
          rw [List.eq_nil_iff_forall_not_mem]
          intro x hx
          have hxa : x = devName r0 := hall x (List.mem_cons_of_mem _ hx)
          have haa : a = devName r0 := hall a (List.mem_cons_self _ _)
          rw [List.nodup_cons] at hnodup
          apply hnodup.1
          rw [haa, ← hxa]
          exact hx
        rw [hl]
        rfl

theorem mem_map_fst {κ α : Type} (k : κ) (m : List (κ × α)) :
    k ∈ m.map Prod.fst ↔ ∃ v, (k, v) ∈ m := by
  rw [List.mem_map]
  constructor
  · intro ⟨p, hp, hk⟩
    exact ⟨p.2, by rwa [show (k, p.2) = p from by rw [← hk]]⟩
  · intro ⟨v, hv⟩
    exact ⟨(k, v), hv, rfl⟩

theorem mem_modifyA_nodup {κ α : Type} [DecidableEq κ] (k : κ) (f : α → α)
    (m : List (κ × α)) (hnd : (m.map Prod.fst).Nodup) (p : κ × α)
    (hp : p ∈ modifyA k f m) :
    (p ∈ m ∧ p.1 ≠ k) ∨ ∃ v : α, (k, v) ∈ m ∧ p = (k, f v) := by
  induction m with
  | nil => cases hp
  | cons q rest ih =>
    cases q with
    | mk qk qv =>
      rw [List.map_cons, List.nodup_cons] at hnd
      rw [modifyA] at hp
      by_cases hk : qk = k
      · rw [if_pos hk] at hp
        rcases List.mem_cons.mp hp with heq | hp2
        · subst hk
          exact Or.inr ⟨qv, List.mem_cons_self _ _, heq⟩
        · left
          refine ⟨List.mem_cons_of_mem _ hp2, ?_⟩
          intro hcon
          apply hnd.1
          have hmem : p.1 ∈ rest.map Prod.fst :=
            (mem_map_fst p.1 rest).mpr ⟨p.2, by simpa using hp2⟩
          rw [hcon, ← hk] at hmem
          exact hmem
      · rw [if_neg hk] at hp
        rcases List.mem_cons.mp hp with heq | hp2
        · left
          refine ⟨by rw [heq]; exact List.mem_cons_self _ _, ?_⟩
          rw [heq]
          exact hk
        · rcases ih hnd.2 hp2 with ⟨h1, h2⟩ | ⟨v, hv, hpv⟩
          · exact Or.inl ⟨List.mem_cons_of_mem _ h1, h2⟩
          · exact Or.inr ⟨v, List.mem_cons_of_mem _ hv, hpv⟩

theorem modifyA_mem_self {κ α : Type} [DecidableEq κ] (k : κ) (f : α → α)
    (m : List (κ × α)) (v : α) (hv : lookupA k m = some v) :
    (k, f v) ∈ modifyA k f m := by
  induction m with
  | nil => cases hv
  | cons q rest ih =>
    cases q with
    | mk qk qv =>
      rw [lookupA_cons] at hv
      rw [modifyA]
      by_cases hk : qk = k
      · rw [if_pos hk] at hv ⊢
        cases hv
        rw [hk]
        exact List.mem_cons_self _ _
      · rw [if_neg hk] at hv ⊢
        exact List.mem_cons_of_mem _ (ih hv)

theorem lookupA_append_self_of_none {κ α : Type} [DecidableEq κ] (k : κ) (v : α)
    (m : List (κ × α)) (h : lookupA k m = none) :
    lookupA k (m ++ [(k, v)]) = some v := by
  rw [lookupA_append, h, lookupA_cons, if_pos rfl]

/-! ## stepTask-level lemmas -/

theorem kept_filter_append (processed : List RawRow) (r : RawRow)
    (hk : keptRow r = true) :
    (processed ++ [r]).filter keptRow = processed.filter keptRow ++ [r] := by
  rw [List.filter_append]
  simp [hk]

theorem kept_filter_append_skip (processed : List RawRow) (r : RawRow)
    (hk : keptRow r = false) :
    (processed ++ [r]).filter keptRow = processed.filter keptRow := by
  rw [List.filter_append]
  simp [hk]

theorem filter_entry_append_pos (l : List RawRow) (r : RawRow)
    (q : RawRow → Bool) (hq : q r = true) :
    ((l ++ [r]).filter q).map entryOf = (l.filter q).map entryOf ++ [entryOf r] := by
  rw [List.filter_append, List.map_append]
  simp [hq]

theorem filter_entry_append_neg (l : List RawRow) (r : RawRow)
    (q : RawRow → Bool) (hq : q r = false) :
    ((l ++ [r]).filter q).map entryOf = (l.filter q).map entryOf := by
  rw [List.filter_append]
  simp [hq]

theorem stepTask_keys_nodup (key : MapKey) (fresh : DraftTask) (r : RawRow)
    (m : List (MapKey × DraftTask)) (hnd : (m.map Prod.fst).Nodup) :
    ((stepTask key fresh r m).map Prod.fst).Nodup := by
  rw [stepTask, map_fst_modifyA]
  by_cases hc : containsA key m = true
  · rw [if_pos hc]
    exact hnd
  · rw [if_neg hc, List.map_append]
    refine List.Nodup.append hnd (List.nodup_singleton _) ?_
    intro a ha hb
    rw [show (List.map Prod.fst [(key, fresh)]) = [key] from rfl,
      List.mem_singleton] at hb
    subst hb
    exact hc ((containsA_iff_exists a m).mpr ((mem_map_fst a m).mp ha))

theorem m1_keys_nodup (key : MapKey) (fresh : DraftTask)
    (m : List (MapKey × DraftTask)) (hnd : (m.map Prod.fst).Nodup) :
    (((if containsA key m = true then m else m ++ [(key, fresh)]).map Prod.fst)).Nodup := by
  by_cases hc : containsA key m = true
  · rw [if_pos hc]
    exact hnd
  · rw [if_neg hc, List.map_append]
    refine List.Nodup.append hnd (List.nodup_singleton _) ?_
    intro a ha hb
    rw [show (List.map Prod.fst [(key, fresh)]) = [key] from rfl,
      List.mem_singleton] at hb
    subst hb
    exact hc ((containsA_iff_exists a m).mpr ((mem_map_fst a m).mp ha))

theorem mem_stepTask (key : MapKey) (fresh : DraftTask) (r : RawRow)
    (m : List (MapKey × DraftTask)) (hnd : (m.map Prod.fst).Nodup)
    (p : MapKey × DraftTask) (hp : p ∈ stepTask key fresh r m) :
    (p ∈ m ∧ p.1 ≠ key) ∨
    (∃ v, (key, v) ∈ m ∧ containsA key m = true ∧
      p.1 = key ∧ p.2 = addEntryToTask r v) ∨
    (containsA key m = false ∧ p.1 = key ∧ p.2 = addEntryToTask r fresh) := by
  rw [stepTask] at hp
  by_cases hc : containsA key m = true
  · rw [if_pos hc] at hp
    rcases mem_modifyA_nodup key _ m hnd p hp with ⟨h1, h2⟩ | ⟨v, hv, hpv⟩
    · exact Or.inl ⟨h1, h2⟩
    · refine Or.inr (Or.inl ⟨v, hv, hc, ?_, ?_⟩)
      · rw [hpv]
      · rw [hpv]
  · rw [if_neg hc] at hp
    have hnd1 : ((m ++ [(key, fresh)]).map Prod.fst).Nodup := by
      have := m1_keys_nodup key fresh m hnd
      rwa [if_neg hc] at this
    rcases mem_modifyA_nodup key _ (m ++ [(key, fresh)]) hnd1 p hp with
      ⟨h1, h2⟩ | ⟨v, hv, hpv⟩
    · rcases List.mem_append.mp h1 with h1 | h1
      · exact Or.inl ⟨h1, h2⟩
      · exfalso
        apply h2
        rw [List.mem_singleton.mp h1]
    · rcases List.mem_append.mp hv with hv | hv
      · exact absurd ((containsA_iff_exists key m).mpr ⟨v, hv⟩) hc
      · have hvf : v = fresh := by
          have := List.mem_singleton.mp hv
          exact congrArg Prod.snd this
        refine Or.inr (Or.inr ⟨by simpa using hc, ?_, ?_⟩)
        · rw [hpv]
        · rw [hpv, hvf]

theorem lookupA_none_of_not_containsA {κ α : Type} [DecidableEq κ] (k : κ)
    (m : List (κ × α)) (hc : containsA k m = false) : lookupA k m = none := by
  rw [containsA] at hc
  cases h : lookupA k m with
  | none => rfl
  | some v => rw [h] at hc; cases hc

theorem containsA_stepTask (key : MapKey) (fresh : DraftTask) (r : RawRow)
    (m : List (MapKey × DraftTask)) (k2 : MapKey) :
    containsA k2 (stepTask key fresh r m) =
      (containsA k2 m || decide (key = k2)) := by
  rw [stepTask, containsA_modifyA]
  by_cases hc : containsA key m = true
  · rw [if_pos hc]
    by_cases hk : key = k2
    · subst hk
      simp [hc]
    · simp [hk]
  · rw [if_neg hc]
    exact containsA_append_single key k2 fresh m

theorem ids_stepTask (key : MapKey) (fresh : DraftTask) (r : RawRow)
    (m : List (MapKey × DraftTask)) :
    (stepTask key fresh r m).map (fun p => p.2.tfsId) =
      if containsA key m = true then m.map fun p => p.2.tfsId
      else (m.map fun p => p.2.tfsId) ++ [fresh.tfsId] := by
  rw [stepTask]
  by_cases hc : containsA key m = true
  · rw [if_pos hc, if_pos hc,
      map_snd_modifyA key (addEntryToTask r) (fun t => t.tfsId) (addEntry_tfsId r) m]
  · rw [if_neg hc, if_neg hc,
      map_snd_modifyA key (addEntryToTask r) (fun t => t.tfsId) (addEntry_tfsId r)
        (m ++ [(key, fresh)]), List.map_append]
    rfl

theorem flagcount_stepTask (key : MapKey) (fresh : DraftTask) (r : RawRow)
    (m : List (MapKey × DraftTask)) :
    ((stepTask key fresh r m).filter fun p => p.2.tfsIdNotEntered).length =
      (m.filter fun p => p.2.tfsIdNotEntered).length +
        (if containsA key m = true then 0
         else if fresh.tfsIdNotEntered then 1 else 0) := by
  rw [stepTask]
  by_cases hc : containsA key m = true
  · rw [if_pos hc, if_pos hc,
      filter_length_modifyA key (addEntryToTask r) (fun t => t.tfsIdNotEntered)
        (addEntry_flag r) m]
    rfl
  · rw [if_neg hc, if_neg hc,
      filter_length_modifyA key (addEntryToTask r) (fun t => t.tfsIdNotEntered)
        (addEntry_flag r) (m ++ [(key, fresh)]), List.filter_append,
      List.length_append, List.filter_cons]
    cases fresh.tfsIdNotEntered <;> simp

theorem mem_stepTask_of_ne (key : MapKey) (fresh : DraftTask) (r : RawRow)
    (m : List (MapKey × DraftTask)) {k2 : MapKey} {v : DraftTask}
    (hmem : (k2, v) ∈ m) (hne : k2 ≠ key) :
    (k2, v) ∈ stepTask key fresh r m := by
  rw [stepTask]
  refine mem_modifyA_of_ne _ _ ?_ hne
  by_cases hc : containsA key m = true
  · rw [if_pos hc]
    exact hmem
  · rw [if_neg hc]
    exact List.mem_append_left _ hmem

theorem mem_stepTask_self_new (key : MapKey) (fresh : DraftTask) (r : RawRow)
    (m : List (MapKey × DraftTask)) (hc : containsA key m = false) :
    (key, addEntryToTask r fresh) ∈ stepTask key fresh r m := by
  rw [stepTask, if_neg (by simp [hc])]
  exact modifyA_mem_self key _ _ fresh
    (lookupA_append_self_of_none key fresh m (lookupA_none_of_not_containsA key m hc))

/-! ## The grouper invariant: preservation, single-developer branch -/

theorem grouperInv_step_tfs (rows processed : List RawRow) (st : GroupState)
    (r : RawRow) (t0 : Nat) (h : GrouperInv rows processed st)
    (hk : keptRow r = true) (hex : extractTfsId r.narrative = some t0)
    (hdc : devCountJs rows t0 = 1) :
    GrouperInv rows (processed ++ [r])
      ⟨stepTask (MapKey.tfs t0) (newDraft (t0 : Int) none "" false r.matterNumber)
          r st.taskMap, st.counter⟩ := by
  obtain ⟨hI1, hI0, hI2, hI3, hI4, hI5, hI6, hI8⟩ := h
  have hfil := kept_filter_append processed r hk
  refine ⟨hI1, stepTask_keys_nodup _ _ _ _ hI0, ?_, ?_, ?_, ?_, ?_, ?_⟩
  · -- shapes of all tasks
    intro k task hmem
    rcases mem_stepTask _ _ _ _ hI0 (k, task) hmem with
      ⟨hold, hne⟩ | ⟨v, hv, _, hk1, hk2⟩ | ⟨hc, hk1, hk2⟩
    · have hshape := hI2 k task hold
      cases k with
      | tfs t =>
        have htne : ¬ extractTfsId r.narrative = some t := by
          rw [hex]
          intro hcon
          exact hne (by rw [Option.some.inj hcon])
        refine ⟨hshape.1, hshape.2.1, hshape.2.2.1, ?_⟩
        rw [hfil, filter_entry_append_neg _ _ _ (by simp [htne])]
        exact hshape.2.2.2
      | tfsDev t d =>
        have hcontains : containsA (MapKey.tfsDev t d) st.taskMap = true :=
          (containsA_iff_exists _ _).mpr ⟨task, hold⟩
        have hdc2 := ((hI4 t d).mp hcontains).1
        have htne : ¬ extractTfsId r.narrative = some t := by
          rw [hex]
          intro hcon
          have ht := Option.some.inj hcon
          subst ht
          exact hdc2 hdc
        refine ⟨hshape.1, hshape.2.1, hshape.2.2.1, hshape.2.2.2.1,
          hshape.2.2.2.2.1, ?_⟩
        rw [hfil, filter_entry_append_neg _ _ _ (by simp [htne])]
        exact hshape.2.2.2.2.2
      | orphan n => exact hshape
    · have hk1e : k = MapKey.tfs t0 := hk1
      have hk2e : task = addEntryToTask r v := hk2
      subst hk1e
      subst hk2e
      have hshape := hI2 (MapKey.tfs t0) v hv
      refine ⟨by rw [addEntry_tfsId]; exact hshape.1,
              by rw [addEntry_orig]; exact hshape.2.1,
              by rw [addEntry_flag]; exact hshape.2.2.1, ?_⟩
      rw [addEntry_entries, hshape.2.2.2, hfil,
        filter_entry_append_pos _ _ _ (by simp [hex])]
    · have hk1e : k = MapKey.tfs t0 := hk1
      have hk2e : task = addEntryToTask r
          (newDraft (t0 : Int) none "" false r.matterNumber) := hk2
      subst hk1e
      subst hk2e
      have hempty : ((processed.filter keptRow).filter fun r2 =>
          extractTfsId r2.narrative = some t0) = [] := by
        have hnot := hc
        rw [← Bool.not_eq_true] at hnot
        rw [hI3 t0] at hnot
        push_neg at hnot
        rw [List.filter_eq_nil_iff]
        intro r2 hr2
        simp only [decide_eq_true_eq]
        intro hcon
        exact (hnot hdc) r2 hr2 hcon
      refine ⟨by rw [addEntry_tfsId]; rfl,
              by rw [addEntry_orig]; rfl,
              by rw [addEntry_flag]; rfl, ?_⟩
      rw [addEntry_entries, hfil,
        filter_entry_append_pos _ _ _ (by simp [hex]), hempty]
      rfl
  · -- presence of single-developer keys
    intro t
    rw [containsA_stepTask]
    by_cases ht : t0 = t
    · subst ht
      constructor
      · intro _
        refine ⟨hdc, r, ?_, hex⟩
        rw [hfil]
        exact List.mem_append_right _ (by simp)
      · intro _
        simp
    · have hne : decide (MapKey.tfs t0 = MapKey.tfs t) = false := by simp [ht]
      rw [hne, Bool.or_false, hI3 t]
      constructor
      · intro ⟨h1, r2, h2, h3⟩
        exact ⟨h1, r2, by rw [hfil]; exact List.mem_append_left _ h2, h3⟩
      · intro ⟨h1, r2, h2, h3⟩
        rw [hfil] at h2
        rcases List.mem_append.mp h2 with h2 | h2
        · exact ⟨h1, r2, h2, h3⟩
        · exfalso
          rw [List.mem_singleton.mp h2, hex] at h3
          exact ht (Option.some.inj h3)
  · -- presence of developer-split keys
    intro t d
    rw [containsA_stepTask]
    have hkd : decide (MapKey.tfs t0 = MapKey.tfsDev t d) = false := by simp
    rw [hkd, Bool.or_false, hI4 t d]
    constructor
    · intro ⟨h1, r2, h2, h3, h4⟩
      exact ⟨h1, r2, by rw [hfil]; exact List.mem_append_left _ h2, h3, h4⟩
    · intro ⟨h1, r2, h2, h3, h4⟩
      rw [hfil] at h2
      rcases List.mem_append.mp h2 with h2 | h2
      · exact ⟨h1, r2, h2, h3, h4⟩
      · exfalso
        rw [List.mem_singleton.mp h2, hex] at h3
        have ht := Option.some.inj h3
        subst ht
        exact h1 hdc
  · -- identifier freshness
    rw [ids_stepTask]
    by_cases hc : containsA (MapKey.tfs t0) st.taskMap = true
    · rw [if_pos hc]
      exact hI5
    · rw [if_neg hc]
      refine List.Nodup.append hI5 (List.nodup_singleton _) ?_
      intro a ha hb
      rw [List.mem_singleton] at hb
      subst hb
      rcases List.mem_map.mp ha with ⟨p, hp, hpa⟩
      rcases p with ⟨pk, pv⟩
      have hshape := hI2 pk pv hp
      cases pk with
      | tfs t =>
        have : (t : Int) = ((t0 : Int)) := by
          rw [← hshape.1, hpa]
          rfl
        have ht := Nat.cast_inj.mp this
        subst ht
        exact hc ((containsA_iff_exists _ _).mpr ⟨pv, hp⟩)
      | tfsDev t d =>
        have h1 : pv.tfsId < 0 := hshape.1
        have hpa2 : pv.tfsId = (t0 : Int) := hpa
        have : (0 : Int) ≤ (t0 : Int) := Int.natCast_nonneg t0
        omega
      | orphan n =>
        have h1 : pv.tfsId = n := hshape.1
        have h2 : n < 0 := hshape.2.2.1
        have hpa2 : pv.tfsId = (t0 : Int) := hpa
        have : (0 : Int) ≤ (t0 : Int) := Int.natCast_nonneg t0
        omega
  · -- orphan count
    rw [flagcount_stepTask]
    have hflag : (newDraft (t0 : Int) none "" false r.matterNumber).tfsIdNotEntered
        = false := rfl
    rw [hflag]
    have hterm : (if containsA (MapKey.tfs t0) st.taskMap = true then 0
        else if false = true then 1 else 0) = 0 := by
      by_cases hc : containsA (MapKey.tfs t0) st.taskMap = true <;> simp [hc]
    rw [hterm, Nat.add_zero, hI6, hfil, List.filter_append]
    have : (List.filter (fun r2 => decide (extractTfsId r2.narrative = none)) [r])
        = [] := by
      simp [hex]
    rw [this, List.append_nil]
  · -- per-orphan-row task
    intro r2 hr2 hext2
    rw [hfil] at hr2
    rcases List.mem_append.mp hr2 with hr2 | hr2
    · rcases hI8 r2 hr2 hext2 with ⟨p, hp, ⟨n, hpn⟩, hpe, hpt⟩
      rcases p with ⟨pk, pv⟩
      have hpk : pk = MapKey.orphan n := hpn
      subst hpk
      exact ⟨(MapKey.orphan n, pv),
        mem_stepTask_of_ne _ _ _ _ hp (by simp), ⟨n, rfl⟩, hpe, hpt⟩
    · exfalso
      rw [List.mem_singleton.mp hr2, hex] at hext2
      cases hext2

/-! ## The grouper invariant: preservation, developer-split branch -/

theorem grouperInv_step_tfsDev (rows processed : List RawRow) (st : GroupState)
    (r : RawRow) (t0 : Nat) (h : GrouperInv rows processed st)
    (hk : keptRow r = true) (hex : extractTfsId r.narrative = some t0)
    (hdc : ¬ devCountJs rows t0 = 1) :
    GrouperInv rows (processed ++ [r])
      ⟨stepTask (MapKey.tfsDev t0 (devName r))
          (newDraft st.counter (some t0) (splitTitle t0 (devName r)) false
            r.matterNumber) r st.taskMap,
        st.counter - 1⟩ := by
  obtain ⟨hI1, hI0, hI2, hI3, hI4, hI5, hI6, hI8⟩ := h
  have hfil := kept_filter_append processed r hk
  rw [GrouperInv]
  dsimp only
  refine ⟨by omega, stepTask_keys_nodup _ _ _ _ hI0, ?_, ?_, ?_, ?_, ?_, ?_⟩
  · -- shapes of all tasks
    intro k task hmem
    rcases mem_stepTask _ _ _ _ hI0 (k, task) hmem with
      ⟨hold, hne⟩ | ⟨v, hv, _, hk1, hk2⟩ | ⟨hc, hk1, hk2⟩
    · have hshape := hI2 k task hold
      cases k with
      | tfs t =>
        have hcontains : containsA (MapKey.tfs t) st.taskMap = true :=
          (containsA_iff_exists _ _).mpr ⟨task, hold⟩
        have hdc2 := ((hI3 t).mp hcontains).1
        have htne : ¬ extractTfsId r.narrative = some t := by
          rw [hex]
          intro hcon
          have ht := Option.some.inj hcon
          subst ht
          exact hdc hdc2
        refine ⟨hshape.1, hshape.2.1, hshape.2.2.1, ?_⟩
        rw [hfil, filter_entry_append_neg _ _ _ (by simp [htne])]
        exact hshape.2.2.2
      | tfsDev t d =>
        have hnotboth : ¬ (extractTfsId r.narrative = some t ∧ devName r = d) := by
          intro ⟨hcon1, hcon2⟩
          rw [hex] at hcon1
          have ht := Option.some.inj hcon1
          subst ht
          subst hcon2
          exact hne rfl
        refine ⟨hshape.1, by have := hshape.2.1; omega, hshape.2.2.1,
          hshape.2.2.2.1, hshape.2.2.2.2.1, ?_⟩
        rw [hfil, filter_entry_append_neg _ _ _ (by simpa using hnotboth)]
        exact hshape.2.2.2.2.2
      | orphan n =>
        exact ⟨hshape.1, by have := hshape.2.1; omega, hshape.2.2.1,
          hshape.2.2.2.1, hshape.2.2.2.2⟩
    · have hk1e : k = MapKey.tfsDev t0 (devName r) := hk1
      have hk2e : task = addEntryToTask r v := hk2
      subst hk1e
      subst hk2e
      have hshape := hI2 (MapKey.tfsDev t0 (devName r)) v hv
      refine ⟨by rw [addEntry_tfsId]; exact hshape.1,
              by rw [addEntry_tfsId]; have := hshape.2.1; omega,
              by rw [addEntry_orig]; exact hshape.2.2.1,
              by rw [addEntry_flag]; exact hshape.2.2.2.1, ?_, ?_⟩
      · rw [addEntry_title_ne r v
          (by rw [hshape.2.2.2.2.1]; exact splitTitle_ne_empty t0 (devName r))]
        exact hshape.2.2.2.2.1
      · rw [addEntry_entries, hshape.2.2.2.2.2, hfil,
          filter_entry_append_pos _ _ _ (by simp [hex])]
    · have hk1e : k = MapKey.tfsDev t0 (devName r) := hk1
      have hk2e : task = addEntryToTask r
          (newDraft st.counter (some t0) (splitTitle t0 (devName r)) false
            r.matterNumber) := hk2
      subst hk1e
      subst hk2e
      have hempty : ((processed.filter keptRow).filter fun r2 =>
          extractTfsId r2.narrative = some t0 ∧ devName r2 = devName r) = [] := by
        have hnot := hc
        rw [← Bool.not_eq_true] at hnot
        rw [hI4 t0 (devName r)] at hnot
        push_neg at hnot
        rw [List.filter_eq_nil_iff]
        intro r2 hr2
        simp only [decide_eq_true_eq, not_and]
        intro hcon1 hcon2
        exact (hnot hdc) r2 hr2 hcon1 hcon2
      refine ⟨by rw [addEntry_tfsId]; exact hI1,
              by rw [addEntry_tfsId]; show st.counter - 1 < st.counter; omega,
              by rw [addEntry_orig]; rfl,
              by rw [addEntry_flag]; rfl, ?_, ?_⟩
      · rw [addEntry_title_ne r _ (splitTitle_ne_empty t0 (devName r))]
        rfl
      · rw [addEntry_entries, hfil,
          filter_entry_append_pos _ _ _ (by simp [hex]), hempty]
        rfl
  · -- presence of single-developer keys
    intro t
    rw [containsA_stepTask]
    have hkd : decide (MapKey.tfsDev t0 (devName r) = MapKey.tfs t) = false := by
      simp
    rw [hkd, Bool.or_false, hI3 t]
    constructor
    · intro ⟨h1, r2, h2, h3⟩
      exact ⟨h1, r2, by rw [hfil]; exact List.mem_append_left _ h2, h3⟩
    · intro ⟨h1, r2, h2, h3⟩
      rw [hfil] at h2
      rcases List.mem_append.mp h2 with h2 | h2
      · exact ⟨h1, r2, h2, h3⟩
      · exfalso
        rw [List.mem_singleton.mp h2, hex] at h3
        have ht := Option.some.inj h3
        subst ht
        exact hdc h1
  · -- presence of developer-split keys
    intro t d
    rw [containsA_stepTask]
    by_cases ht : t0 = t
    · subst ht
      by_cases hd : devName r = d
      · subst hd
        constructor
        · intro _
          refine ⟨hdc, r, ?_, hex, rfl⟩
          rw [hfil]
          exact List.mem_append_right _ (by simp)
        · intro _
          simp
      · have hkd : decide (MapKey.tfsDev t0 (devName r) = MapKey.tfsDev t0 d)
            = false := by simp [hd]
        rw [hkd, Bool.or_false, hI4 t0 d]
        constructor
        · intro ⟨h1, r2, h2, h3, h4⟩
          exact ⟨h1, r2, by rw [hfil]; exact List.mem_append_left _ h2, h3, h4⟩
        · intro ⟨h1, r2, h2, h3, h4⟩
          rw [hfil] at h2
          rcases List.mem_append.mp h2 with h2 | h2
          · exact ⟨h1, r2, h2, h3, h4⟩
          · exfalso
            rw [List.mem_singleton.mp h2] at h4
            exact hd h4
    · have hkd : decide (MapKey.tfsDev t0 (devName r) = MapKey.tfsDev t d)
          = false := by simp [ht]
      rw [hkd, Bool.or_false, hI4 t d]
      constructor
      · intro ⟨h1, r2, h2, h3, h4⟩
        exact ⟨h1, r2, by rw [hfil]; exact List.mem_append_left _ h2, h3, h4⟩
      · intro ⟨h1, r2, h2, h3, h4⟩
        rw [hfil] at h2
        rcases List.mem_append.mp h2 with h2 | h2
        · exact ⟨h1, r2, h2, h3, h4⟩
        · exfalso
          rw [List.mem_singleton.mp h2, hex] at h3
          exact ht (Option.some.inj h3)
  · -- identifier freshness
    rw [ids_stepTask]
    by_cases hc : containsA (MapKey.tfsDev t0 (devName r)) st.taskMap = true
    · rw [if_pos hc]
      exact hI5
    · rw [if_neg hc]
      refine List.Nodup.append hI5 (List.nodup_singleton _) ?_
      intro a ha hb
      rw [List.mem_singleton] at hb
      subst hb
      rcases List.mem_map.mp ha with ⟨p, hp, hpa⟩
      rcases p with ⟨pk, pv⟩
      have hshape := hI2 pk pv hp
      cases pk with
      | tfs t =>
        have h1 : pv.tfsId = (t : Int) := hshape.1
        have hpa2 : pv.tfsId = st.counter := hpa
        have : (0 : Int) ≤ (t : Int) := Int.natCast_nonneg t
        omega
      | tfsDev t d =>
        have h1 : st.counter < pv.tfsId := hshape.2.1
        have hpa2 : pv.tfsId = st.counter := hpa
        omega
      | orphan n =>
        have h1 : pv.tfsId = n := hshape.1
        have h2 : st.counter < n := hshape.2.1
        have hpa2 : pv.tfsId = st.counter := hpa
        omega
  · -- orphan count
    rw [flagcount_stepTask]
    have hterm : (if containsA (MapKey.tfsDev t0 (devName r)) st.taskMap = true
        then 0
        else if (newDraft st.counter (some t0) (splitTitle t0 (devName r)) false
            r.matterNumber).tfsIdNotEntered = true then 1 else 0) = 0 := by
      by_cases hc : containsA (MapKey.tfsDev t0 (devName r)) st.taskMap = true <;>
        simp [hc, newDraft]
    rw [hterm, Nat.add_zero, hI6, hfil, List.filter_append]
    have : (List.filter (fun r2 => decide (extractTfsId r2.narrative = none)) [r])
        = [] := by
      simp [hex]
    rw [this, List.append_nil]
  · -- per-orphan-row task
    intro r2 hr2 hext2
    rw [hfil] at hr2
    rcases List.mem_append.mp hr2 with hr2 | hr2
    · rcases hI8 r2 hr2 hext2 with ⟨p, hp, ⟨n, hpn⟩, hpe, hpt⟩
      rcases p with ⟨pk, pv⟩
      have hpk : pk = MapKey.orphan n := hpn
      subst hpk
      exact ⟨(MapKey.orphan n, pv),
        mem_stepTask_of_ne _ _ _ _ hp (by simp), ⟨n, rfl⟩, hpe, hpt⟩
    · exfalso
      rw [List.mem_singleton.mp hr2, hex] at hext2
      cases hext2

/-! ## The grouper invariant: preservation, orphan branch -/

theorem grouperInv_step_orphan (rows processed : List RawRow) (st : GroupState)
    (r : RawRow) (h : GrouperInv rows processed st)
    (hk : keptRow r = true) (hex : extractTfsId r.narrative = none) :
    GrouperInv rows (processed ++ [r])
      ⟨stepTask (MapKey.orphan st.counter)
          (newDraft st.counter none (orphanTitle r) true r.matterNumber) r
          st.taskMap,
        st.counter - 1⟩ := by
  obtain ⟨hI1, hI0, hI2, hI3, hI4, hI5, hI6, hI8⟩ := h
  have hfil := kept_filter_append processed r hk
  have hc : containsA (MapKey.orphan st.counter) st.taskMap = false := by
    rw [← Bool.not_eq_true, containsA_iff_exists]
    intro ⟨task, htask⟩
    have hshape := hI2 (MapKey.orphan st.counter) task htask
    have := hshape.2.1
    omega
  rw [GrouperInv]
  dsimp only
  refine ⟨by omega, stepTask_keys_nodup _ _ _ _ hI0, ?_, ?_, ?_, ?_, ?_, ?_⟩
  · -- shapes of all tasks
    intro k task hmem
    rcases mem_stepTask _ _ _ _ hI0 (k, task) hmem with
      ⟨hold, hne⟩ | ⟨v, hv, hcv, _, _⟩ | ⟨_, hk1, hk2⟩
    · have hshape := hI2 k task hold
      cases k with
      | tfs t =>
        have htne : ¬ extractTfsId r.narrative = some t := by
          rw [hex]
          intro hcon
          cases hcon
        refine ⟨hshape.1, hshape.2.1, hshape.2.2.1, ?_⟩
        rw [hfil, filter_entry_append_neg _ _ _ (by simp [htne])]
        exact hshape.2.2.2
      | tfsDev t d =>
        have htne : ¬ extractTfsId r.narrative = some t := by
          rw [hex]
          intro hcon
          cases hcon
        refine ⟨hshape.1, by have := hshape.2.1; omega, hshape.2.2.1,
          hshape.2.2.2.1, hshape.2.2.2.2.1, ?_⟩
        rw [hfil, filter_entry_append_neg _ _ _ (by simp [htne])]
        exact hshape.2.2.2.2.2
      | orphan n =>
        exact ⟨hshape.1, by have := hshape.2.1; omega, hshape.2.2.1,
          hshape.2.2.2.1, hshape.2.2.2.2⟩
    · rw [hcv] at hc
      cases hc
    · have hk1e : k = MapKey.orphan st.counter := hk1
      have hk2e : task = addEntryToTask r
          (newDraft st.counter none (orphanTitle r) true r.matterNumber) := hk2
      subst hk1e
      subst hk2e
      dsimp only
      refine ⟨by rw [addEntry_tfsId]; rfl,
              by omega,
              hI1,
              by rw [addEntry_orig]; rfl,
              by rw [addEntry_flag]; rfl⟩
  · -- presence of single-developer keys
    intro t
    rw [containsA_stepTask]
    have hkd : decide (MapKey.orphan st.counter = MapKey.tfs t) = false := by simp
    rw [hkd, Bool.or_false, hI3 t]
    constructor
    · intro ⟨h1, r2, h2, h3⟩
      exact ⟨h1, r2, by rw [hfil]; exact List.mem_append_left _ h2, h3⟩
    · intro ⟨h1, r2, h2, h3⟩
      rw [hfil] at h2
      rcases List.mem_append.mp h2 with h2 | h2
      · exact ⟨h1, r2, h2, h3⟩
      · exfalso
        rw [List.mem_singleton.mp h2, hex] at h3
        cases h3
  · -- presence of developer-split keys
    intro t d
    rw [containsA_stepTask]
    have hkd : decide (MapKey.orphan st.counter = MapKey.tfsDev t d) = false := by
      simp
    rw [hkd, Bool.or_false, hI4 t d]
    constructor
    · intro ⟨h1, r2, h2, h3, h4⟩
      exact ⟨h1, r2, by rw [hfil]; exact List.mem_append_left _ h2, h3, h4⟩
    · intro ⟨h1, r2, h2, h3, h4⟩
      rw [hfil] at h2
      rcases List.mem_append.mp h2 with h2 | h2
      · exact ⟨h1, r2, h2, h3, h4⟩
      · exfalso
        rw [List.mem_singleton.mp h2, hex] at h3
        cases h3
  · -- identifier freshness
    rw [ids_stepTask, if_neg (by simp [hc])]
    refine List.Nodup.append hI5 (List.nodup_singleton _) ?_
    intro a ha hb
    rw [List.mem_singleton] at hb
    subst hb
    rcases List.mem_map.mp ha with ⟨p, hp, hpa⟩
    rcases p with ⟨pk, pv⟩
    have hshape := hI2 pk pv hp
    cases pk with
    | tfs t =>
      have h1 : pv.tfsId = (t : Int) := hshape.1
      have hpa2 : pv.tfsId = st.counter := hpa
      have : (0 : Int) ≤ (t : Int) := Int.natCast_nonneg t
      omega
    | tfsDev t d =>
      have h1 : st.counter < pv.tfsId := hshape.2.1
      have hpa2 : pv.tfsId = st.counter := hpa
      omega
    | orphan n =>
      have h1 : pv.tfsId = n := hshape.1
      have h2 : st.counter < n := hshape.2.1
      have hpa2 : pv.tfsId = st.counter := hpa
      omega
  · -- orphan count
    rw [flagcount_stepTask, if_neg (by simp [hc])]
    have hflag : ((newDraft st.counter none (orphanTitle r) true
        r.matterNumber).tfsIdNotEntered = true) := rfl
    rw [if_pos hflag, hI6, hfil, List.filter_append]
    have : (List.filter (fun r2 => decide (extractTfsId r2.narrative = none)) [r])
        = [r] := by
      simp [hex]
    rw [this]
    simp
  · -- per-orphan-row task
    intro r2 hr2 hext2
    rw [hfil] at hr2
    rcases List.mem_append.mp hr2 with hr2 | hr2
    · rcases hI8 r2 hr2 hext2 with ⟨p, hp, ⟨n, hpn⟩, hpe, hpt⟩
      rcases p with ⟨pk, pv⟩
      have hpk : pk = MapKey.orphan n := hpn
      subst hpk
      have hshape := hI2 (MapKey.orphan n) pv hp
      have hne : MapKey.orphan n ≠ MapKey.orphan st.counter := by
        simp only [ne_eq, MapKey.orphan.injEq]
        have := hshape.2.1
        omega
      exact ⟨(MapKey.orphan n, pv),
        mem_stepTask_of_ne _ _ _ _ hp hne, ⟨n, rfl⟩, hpe, hpt⟩
    · have hr2e : r2 = r := List.mem_singleton.mp hr2
      subst hr2e
      refine ⟨(MapKey.orphan st.counter,
        addEntryToTask r2 (newDraft st.counter none (orphanTitle r2) true
          r2.matterNumber)),
        mem_stepTask_self_new _ _ _ _ hc, ⟨st.counter, rfl⟩, ?_, ?_⟩
      · rw [addEntry_entries]
        rfl
      · rw [addEntry_title_ne r2 _ (orphanTitle_ne_empty r2)]
        rfl

theorem claim_C5_witness :
    (([⟨100, none, "draft", false, none, none, none, [], 0, [], []⟩] :
        List DraftTask).map (·.tfsId)).Nodup ∧
    (([⟨100, "meta title", some 8, none⟩, ⟨200, "other", some 5, some 3⟩] :
        List ScoreRec).map (·.tfsId)).Nodup ∧
    mergeData [⟨100, none, "draft", false, none, none, none, [], 0, [], []⟩]
        [⟨100, "meta title", some 8, none⟩, ⟨200, "other", some 5, some 3⟩] =
      (([⟨100, none, "draft", false, none, none, none, [], 0, [], []⟩] :
          List DraftTask).map fun d =>
        match ([⟨100, "meta title", some 8, none⟩, ⟨200, "other", some 5, some 3⟩] :
            List ScoreRec).find? (fun s => s.tfsId = d.tfsId) with
        | some s => applyScore s d
        | none => d) ++
      ((([⟨100, "meta title", some 8, none⟩, ⟨200, "other", some 5, some 3⟩] :
          List ScoreRec).filter fun s =>
            s.tfsId ∉ ([⟨100, none, "draft", false, none, none, none, [], 0, [], []⟩] :
              List DraftTask).map (·.tfsId)).map standaloneTask) :=
  ⟨by decide, by decide,
    claim_C5.1 _ _ (by decide) (by decide)⟩

/-! ## The grouper invariant: skipped rows, dispatcher, fold, establishment -/

theorem grouperInv_step_skip (rows processed : List RawRow) (st : GroupState)
    (r : RawRow) (h : GrouperInv rows processed st) (hk : keptRow r = false) :
    GrouperInv rows (processed ++ [r]) st := by
  have hfil := kept_filter_append_skip processed r hk
  rw [GrouperInv] at h ⊢
  simp only [hfil]
  exact h

theorem grouperInv_step (rows processed : List RawRow) (st : GroupState)
    (r : RawRow) (h : GrouperInv rows processed st) :
    GrouperInv rows (processed ++ [r]) (processRow rows st r) := by
  cases hk : keptRow r with
  | false =>
    rw [processRow_skip rows st r hk]
    exact grouperInv_step_skip rows processed st r h hk
  | true =>
    cases hex : extractTfsId r.narrative with
    | some t =>
      by_cases hdc : devCountJs rows t = 1
      · have heq : processRow rows st r =
            ⟨stepTask (MapKey.tfs t)
              (newDraft (t : Int) none "" false r.matterNumber) r st.taskMap,
              st.counter⟩ := by
          rw [processRow, hk]
          simp [hex, hdc]
        rw [heq]
        exact grouperInv_step_tfs rows processed st r t h hk hex hdc
      · have heq : processRow rows st r =
            ⟨stepTask (MapKey.tfsDev t (devName r))
              (newDraft st.counter (some t) (splitTitle t (devName r)) false
                r.matterNumber) r st.taskMap,
              st.counter - 1⟩ := by
          rw [processRow, hk]
          simp [hex, hdc]
        rw [heq]
        exact grouperInv_step_tfsDev rows processed st r t h hk hex hdc
    | none =>
      have heq : processRow rows st r =
          ⟨stepTask (MapKey.orphan st.counter)
            (newDraft st.counter none (orphanTitle r) true r.matterNumber) r
            st.taskMap,
            st.counter - 1⟩ := by
        rw [processRow, hk]
        simp [hex]
      rw [heq]
      exact grouperInv_step_orphan rows processed st r h hk hex

theorem grouperInv_base (rows : List RawRow) : GrouperInv rows [] ⟨[], -1⟩ := by
  rw [GrouperInv]
  dsimp only
  refine ⟨by norm_num, List.nodup_nil, ?_, ?_, ?_, List.nodup_nil, rfl, ?_⟩
  · intro k task hmem
    simp at hmem
  · intro t
    constructor
    · intro hcon
      simp [containsA, lookupA_nil] at hcon
    · rintro ⟨-, r2, hr2, -⟩
      simp at hr2
  · intro t d
    constructor
    · intro hcon
      simp [containsA, lookupA_nil] at hcon
    · rintro ⟨-, r2, hr2, -⟩
      simp at hr2
  · intro r2 hr2 hex2
    simp at hr2

theorem grouperInv_fold (rows : List RawRow) (rest : List RawRow) :
    ∀ (processed : List RawRow) (st : GroupState),
    GrouperInv rows processed st →
    GrouperInv rows (processed ++ rest) (rest.foldl (processRow rows) st) := by
  induction rest with
  | nil =>
    intro processed st h
    rw [List.foldl_nil, List.append_nil]
    exact h
  | cons r rest ih =>
    intro processed st h
    rw [List.foldl_cons, List.append_cons]
    exact ih (processed ++ [r]) (processRow rows st r)
      (grouperInv_step rows processed st r h)

theorem grouperInv_parse (rows : List RawRow) :
    GrouperInv rows rows (rows.foldl (processRow rows) ⟨[], -1⟩) := by
  have h := grouperInv_fold rows rows [] ⟨[], -1⟩ (grouperInv_base rows)
  rwa [List.nil_append] at h

theorem mem_parseTimesheetData (rows : List RawRow) (task : DraftTask) :
    task ∈ parseTimesheetData rows ↔
      ∃ k, (k, task) ∈ (rows.foldl (processRow rows) ⟨[], -1⟩).taskMap := by
  rw [parseTimesheetData, List.mem_map]
  constructor
  · rintro ⟨⟨k, v⟩, hp, he⟩
    dsimp only at he
    subst he
    exact ⟨k, hp⟩
  · rintro ⟨k, hk⟩
    exact ⟨(k, task), hk, rfl⟩

theorem devCountOf_ne_zero (rows : List RawRow) (r : RawRow) (t : Nat)
    (hr : r ∈ rows.filter keptRow) (hex : extractTfsId r.narrative = some t) :
    devCountOf rows t ≠ 0 := by
  rw [devCountOf, lookupA_tfsDevCount]
  have hne : (((rows.filter keptRow).filter fun r2 =>
      extractTfsId r2.narrative = some t).map devName) ≠ [] := by
    intro hcon
    have hmem : r ∈ (rows.filter keptRow).filter fun r2 =>
        extractTfsId r2.narrative = some t := by
      rw [List.mem_filter]
      exact ⟨hr, by simp [hex]⟩
    have := List.mem_map_of_mem devName hmem
    rw [hcon] at this
    simp at this
  rw [if_neg hne]
  simp only [Option.getD_some]
  intro hlen
  exact foldl_addUnique_ne_nil _ [] hne (List.eq_nil_of_length_eq_zero hlen)

/-- C3: per filtered row, the developer-sensitive grouper behaves as specified:
a recovered identifier with exactly one resolving developer in the batch joins
the task keyed by that identifier; a recovered identifier shared by several
developers yields a per-developer task with a negative placeholder id, a
split title, and an `originalTfsId` back-reference; a row without an
identifier becomes its own flagged task with a placeholder id and the
matter/developer/date title. -/
theorem claim_C3 (rows : List RawRow) (r : RawRow)
    (hr : r ∈ rows.filter keptRow) :
    (∀ t : Nat, extractTfsId r.narrative = some t →
      (∀ r1 ∈ rows.filter keptRow, extractTfsId r1.narrative = some t →
        devName r1 = devName r) →
      ∃ task ∈ parseTimesheetData rows,
        task.tfsId = (t : Int) ∧ task.originalTfsId = none ∧
        task.tfsIdNotEntered = false ∧
        task.timeEntries =
          (((rows.filter keptRow).filter fun r2 =>
            extractTfsId r2.narrative = some t).map entryOf)) ∧
    (∀ t : Nat, extractTfsId r.narrative = some t →
      (∃ r2 ∈ rows.filter keptRow,
        extractTfsId r2.narrative = some t ∧ devName r2 ≠ devName r) →
      ∃ task ∈ parseTimesheetData rows,
        task.tfsId < 0 ∧ task.originalTfsId = some t ∧
        task.tfsIdNotEntered = false ∧
        task.title = splitTitle t (devName r) ∧
        task.timeEntries =
          (((rows.filter keptRow).filter fun r2 =>
            extractTfsId r2.narrative = some t ∧ devName r2 = devName r).map
              entryOf)) ∧
    (extractTfsId r.narrative = none →
      ∃ task ∈ parseTimesheetData rows,
        task.tfsId < 0 ∧ task.originalTfsId = none ∧
        task.tfsIdNotEntered = true ∧
        task.timeEntries = [entryOf r] ∧ task.title = orphanTitle r) := by
  obtain ⟨hI1, hI0, hI2, hI3, hI4, hI5, hI6, hI8⟩ := grouperInv_parse rows
  refine ⟨?_, ?_, ?_⟩
  · intro t hex hone
    have hdc0 := devCountOf_ne_zero rows r t hr hex
    have hdc1 : devCountOf rows t = 1 := by
      rw [devCount_bridge]
      refine ⟨⟨r, hr, hex⟩, ?_⟩
      intro r1 h1 r2 h2 e1 e2
      rw [hone r1 h1 e1, hone r2 h2 e2]
    have hdc : devCountJs rows t = 1 := by
      rw [devCountJs, if_neg hdc0]
      exact hdc1
    have hcon := (hI3 t).mpr ⟨hdc, r, hr, hex⟩
    rcases (containsA_iff_exists _ _).mp hcon with ⟨task, htask⟩
    have hshape := hI2 (MapKey.tfs t) task htask
    exact ⟨task, (mem_parseTimesheetData rows task).mpr ⟨_, htask⟩,
      hshape.1, hshape.2.1, hshape.2.2.1, hshape.2.2.2⟩
  · intro t hex hmul
    obtain ⟨r2, h2, e2, hd2⟩ := hmul
    have hdc0 := devCountOf_ne_zero rows r t hr hex
    have hdcne : devCountJs rows t ≠ 1 := by
      rw [devCountJs, if_neg hdc0]
      intro hcon1
      have hbr := (devCount_bridge rows t).mp hcon1
      exact hd2 (hbr.2 r2 h2 r hr e2 hex)
    have hcon := (hI4 t (devName r)).mpr ⟨hdcne, r, hr, hex, rfl⟩
    rcases (containsA_iff_exists _ _).mp hcon with ⟨task, htask⟩
    have hshape := hI2 (MapKey.tfsDev t (devName r)) task htask
    exact ⟨task, (mem_parseTimesheetData rows task).mpr ⟨_, htask⟩,
      hshape.1, hshape.2.2.1, hshape.2.2.2.1, hshape.2.2.2.2.1,
      hshape.2.2.2.2.2⟩
  · intro hex
    rcases hI8 r hr hex with ⟨p, hp, ⟨n, hpn⟩, hpe, hpt⟩
    rcases p with ⟨pk, pv⟩
    have hpk : pk = MapKey.orphan n := hpn
    subst hpk
    have hshape := hI2 (MapKey.orphan n) pv hp
    exact ⟨pv, (mem_parseTimesheetData rows pv).mpr ⟨_, hp⟩,
      by rw [hshape.1]; exact hshape.2.2.1, hshape.2.2.2.1, hshape.2.2.2.2,
      hpe, hpt⟩

theorem claim_C3_witness :
    (⟨7, "A", "B", "t", some "2025-01-01", some 4, "TFS 19455 review", "c",
        "d", none, "w"⟩ : RawRow) ∈
      ([⟨7, "A", "B", "t", some "2025-01-01", some 4, "TFS 19455 review", "c",
          "d", none, "w"⟩] : List RawRow).filter keptRow ∧
    extractTfsId "TFS 19455 review" = some 19455 ∧
    (∃ task ∈ parseTimesheetData
        [⟨7, "A", "B", "t", some "2025-01-01", some 4, "TFS 19455 review", "c",
          "d", none, "w"⟩],
      task.tfsId = ((19455 : Nat) : Int) ∧ task.originalTfsId = none ∧
      task.tfsIdNotEntered = false ∧
      task.timeEntries =
        ((([⟨7, "A", "B", "t", some "2025-01-01", some 4, "TFS 19455 review",
            "c", "d", none, "w"⟩] : List RawRow).filter keptRow).filter
          (fun r2 => extractTfsId r2.narrative = some 19455)).map entryOf) := by
  have hr : (⟨7, "A", "B", "t", some "2025-01-01", some 4, "TFS 19455 review",
      "c", "d", none, "w"⟩ : RawRow) ∈
      ([⟨7, "A", "B", "t", some "2025-01-01", some 4, "TFS 19455 review", "c",
          "d", none, "w"⟩] : List RawRow).filter keptRow :=
    List.mem_filter.mpr ⟨List.mem_singleton_self _, by decide⟩
  refine ⟨hr, by decide, ?_⟩
  refine (claim_C3 _ _ hr).1 19455 (by decide) ?_
  intro r1 h1 hex1
  rcases List.mem_filter.mp h1 with ⟨h1m, -⟩
  rw [List.mem_singleton.mp h1m]

/-! ## Order sensitivity of the grouper (C9) -/

theorem foldl_fn_congr {a b : Type} (f g : b -> a -> b)
    (h : ∀ x y, f x y = g x y) :
    ∀ (l : List a) (x : b), l.foldl f x = l.foldl g x := by
  intro l
  induction l with
  | nil => intro x; rfl
  | cons y l ih =>
    intro x
    rw [List.foldl_cons, List.foldl_cons, h x y]
    exact ih (g x y)

theorem foldl_filter_skip {a b : Type} (p : a → Bool) (f : b → a → b)
    (hf : ∀ x y, p y = false → f x y = x) (l : List a) :
    ∀ x : b, (l.filter p).foldl f x = l.foldl f x := by
  induction l with
  | nil => intro x; rfl
  | cons y l ih =>
    intro x
    rw [List.filter_cons, List.foldl_cons]
    cases hy : p y with
    | true =>
      simp only [if_true]
      rw [List.foldl_cons]
      exact ih (f x y)
    | false =>
      simp only [Bool.false_eq_true, if_false]
      rw [hf x y hy]
      exact ih x

theorem tfsDevCount_filter (rows : List RawRow) :
    tfsDevCount (rows.filter keptRow) = tfsDevCount rows := by
  rw [tfsDevCount, tfsDevCount]
  exact foldl_filter_skip keptRow _ (fun m r hr => by simp [hr]) rows []

theorem devCountJs_filter (rows : List RawRow) (t : Nat) :
    devCountJs (rows.filter keptRow) t = devCountJs rows t := by
  rw [devCountJs, devCountJs, devCountOf, devCountOf, tfsDevCount_filter]

theorem processRow_eq_of_devCount (rows1 rows2 : List RawRow)
    (h : ∀ t, devCountJs rows1 t = devCountJs rows2 t) (st : GroupState)
    (r : RawRow) : processRow rows1 st r = processRow rows2 st r := by
  rw [processRow, processRow]
  cases hk : keptRow r with
  | false => rfl
  | true =>
    cases hex : extractTfsId r.narrative with
    | none => rfl
    | some t => simp only [h]

theorem parse_sum (rows : List RawRow) :
    ((parseTimesheetData rows).map (fun task => task.totalActualHours)).sum =
      ((rows.filter keptRow).map fun r => r.workHrs.getD 0).sum := by
  rw [parseTimesheetData, List.map_map]
  have e := grouper_sum rows rows ⟨[], -1⟩
  simp only [List.map_nil, List.sum_nil, zero_add] at e
  exact e

/-! ## Two orphan rows, in both orders -/

theorem parse_pair_AB :
    (parseTimesheetData [⟨7, "A", "B", "t", some "2025-01-01", some 4, "n", "c", "d", none, "w1"⟩, ⟨8, "C", "D", "t", some "2025-01-02", some 3, "m", "c", "d", none, "w2"⟩]).map (fun task => (task.tfsId, task.title)) =
      [(-1, "w1 - A B (2025-01-01)"), (-2, "w2 - C D (2025-01-02)")] := by
  have hkA : keptRow ⟨7, "A", "B", "t", some "2025-01-01", some 4, "n", "c", "d", none, "w1"⟩ = true := by decide
  have hkB : keptRow ⟨8, "C", "D", "t", some "2025-01-02", some 3, "m", "c", "d", none, "w2"⟩ = true := by decide
  have hexA : extractTfsId "n" = none := by decide
  have hexB : extractTfsId "m" = none := by decide
  have h1 : processRow [⟨7, "A", "B", "t", some "2025-01-01", some 4, "n", "c", "d", none, "w1"⟩, ⟨8, "C", "D", "t", some "2025-01-02", some 3, "m", "c", "d", none, "w2"⟩] ⟨[], -1⟩ ⟨7, "A", "B", "t", some "2025-01-01", some 4, "n", "c", "d", none, "w1"⟩ =
      ⟨[(MapKey.orphan (-1),
          ⟨-1, none, "w1 - A B (2025-01-01)", true, none, none, none,
            [⟨7, "B", "A", "t", some "2025-01-01", some "2025-01-01", 4, "n", "c", "d"⟩],
            4, [("A B", 4)], [("A B", [("2025-01-01", 4)])]⟩)], -2⟩ := by
    rw [processRow, hkA]
    dsimp only
    rw [hexA]
    dsimp only
    simp [stepTask, containsA, lookupA_nil, modifyA, addEntryToTask, entryOf,
      bumpA, bumpNested, setA, lookupA_cons, newDraft, orphanTitle, devName,
      jsOrStr]
  have h2 : processRow [⟨7, "A", "B", "t", some "2025-01-01", some 4, "n", "c", "d", none, "w1"⟩, ⟨8, "C", "D", "t", some "2025-01-02", some 3, "m", "c", "d", none, "w2"⟩]
      ⟨[(MapKey.orphan (-1),
          ⟨-1, none, "w1 - A B (2025-01-01)", true, none, none, none,
            [⟨7, "B", "A", "t", some "2025-01-01", some "2025-01-01", 4, "n", "c", "d"⟩],
            4, [("A B", 4)], [("A B", [("2025-01-01", 4)])]⟩)], -2⟩ ⟨8, "C", "D", "t", some "2025-01-02", some 3, "m", "c", "d", none, "w2"⟩ =
      ⟨[(MapKey.orphan (-1),
          ⟨-1, none, "w1 - A B (2025-01-01)", true, none, none, none,
            [⟨7, "B", "A", "t", some "2025-01-01", some "2025-01-01", 4, "n", "c", "d"⟩],
            4, [("A B", 4)], [("A B", [("2025-01-01", 4)])]⟩),
        (MapKey.orphan (-2),
          ⟨-2, none, "w2 - C D (2025-01-02)", true, none, none, none,
            [⟨8, "D", "C", "t", some "2025-01-02", some "2025-01-02", 3, "m", "c", "d"⟩],
            3, [("C D", 3)], [("C D", [("2025-01-02", 3)])]⟩)], -3⟩ := by
    rw [processRow, hkB]
    dsimp only
    rw [hexB]
    dsimp only
    simp [stepTask, containsA, lookupA_nil, modifyA, addEntryToTask, entryOf,
      bumpA, bumpNested, setA, lookupA_cons, newDraft, orphanTitle, devName,
      jsOrStr]
  rw [parseTimesheetData, List.foldl_cons, List.foldl_cons, List.foldl_nil,
    h1, h2]
  rfl

theorem parse_pair_BA :
    (parseTimesheetData [⟨8, "C", "D", "t", some "2025-01-02", some 3, "m", "c", "d", none, "w2"⟩, ⟨7, "A", "B", "t", some "2025-01-01", some 4, "n", "c", "d", none, "w1"⟩]).map (fun task => (task.tfsId, task.title)) =
      [(-1, "w2 - C D (2025-01-02)"), (-2, "w1 - A B (2025-01-01)")] := by
  have hkA : keptRow ⟨7, "A", "B", "t", some "2025-01-01", some 4, "n", "c", "d", none, "w1"⟩ = true := by decide
  have hkB : keptRow ⟨8, "C", "D", "t", some "2025-01-02", some 3, "m", "c", "d", none, "w2"⟩ = true := by decide
  have hexA : extractTfsId "n" = none := by decide
  have hexB : extractTfsId "m" = none := by decide
  have h1 : processRow [⟨8, "C", "D", "t", some "2025-01-02", some 3, "m", "c", "d", none, "w2"⟩, ⟨7, "A", "B", "t", some "2025-01-01", some 4, "n", "c", "d", none, "w1"⟩] ⟨[], -1⟩ ⟨8, "C", "D", "t", some "2025-01-02", some 3, "m", "c", "d", none, "w2"⟩ =
      ⟨[(MapKey.orphan (-1),
          ⟨-1, none, "w2 - C D (2025-01-02)", true, none, none, none,
            [⟨8, "D", "C", "t", some "2025-01-02", some "2025-01-02", 3, "m", "c", "d"⟩],
            3, [("C D", 3)], [("C D", [("2025-01-02", 3)])]⟩)], -2⟩ := by
    rw [processRow, hkB]
    dsimp only
    rw [hexB]
    dsimp only
    simp [stepTask, containsA, lookupA_nil, modifyA, addEntryToTask, entryOf,
      bumpA, bumpNested, setA, lookupA_cons, newDraft, orphanTitle, devName,
      jsOrStr]
  have h2 : processRow [⟨8, "C", "D", "t", some "2025-01-02", some 3, "m", "c", "d", none, "w2"⟩, ⟨7, "A", "B", "t", some "2025-01-01", some 4, "n", "c", "d", none, "w1"⟩]
      ⟨[(MapKey.orphan (-1),
          ⟨-1, none, "w2 - C D (2025-01-02)", true, none, none, none,
            [⟨8, "D", "C", "t", some "2025-01-02", some "2025-01-02", 3, "m", "c", "d"⟩],
            3, [("C D", 3)], [("C D", [("2025-01-02", 3)])]⟩)], -2⟩ ⟨7, "A", "B", "t", some "2025-01-01", some 4, "n", "c", "d", none, "w1"⟩ =
      ⟨[(MapKey.orphan (-1),
          ⟨-1, none, "w2 - C D (2025-01-02)", true, none, none, none,
            [⟨8, "D", "C", "t", some "2025-01-02", some "2025-01-02", 3, "m", "c", "d"⟩],
            3, [("C D", 3)], [("C D", [("2025-01-02", 3)])]⟩),
        (MapKey.orphan (-2),
          ⟨-2, none, "w1 - A B (2025-01-01)", true, none, none, none,
            [⟨7, "B", "A", "t", some "2025-01-01", some "2025-01-01", 4, "n", "c", "d"⟩],
            4, [("A B", 4)], [("A B", [("2025-01-01", 4)])]⟩)], -3⟩ := by
    rw [processRow, hkA]
    dsimp only
    rw [hexA]
    dsimp only
    simp [stepTask, containsA, lookupA_nil, modifyA, addEntryToTask, entryOf,
      bumpA, bumpNested, setA, lookupA_cons, newDraft, orphanTitle, devName,
      jsOrStr]
  rw [parseTimesheetData, List.foldl_cons, List.foldl_cons, List.foldl_nil,
    h1, h2]
  rfl

/-- C9, counterexample: the grouper is not a pure function of the filtered
row multiset. Two batches holding the same two no-identifier rows in opposite
orders are permutations of each other, yet the produced task lists are not
permutations: the placeholder identifiers are handed out in iteration order,
so the task carrying id `-1` has a different title in each run. -/
theorem counterexample_C9 :
    ∃ rows1 rows2 : List RawRow,
      (rows1.filter keptRow).Perm (rows2.filter keptRow) ∧
      ¬ (parseTimesheetData rows1).Perm (parseTimesheetData rows2) := by
  refine ⟨[⟨7, "A", "B", "t", some "2025-01-01", some 4, "n", "c", "d", none, "w1"⟩, ⟨8, "C", "D", "t", some "2025-01-02", some 3, "m", "c", "d", none, "w2"⟩], [⟨8, "C", "D", "t", some "2025-01-02", some 3, "m", "c", "d", none, "w2"⟩, ⟨7, "A", "B", "t", some "2025-01-01", some 4, "n", "c", "d", none, "w1"⟩], ?_, ?_⟩
  · have hkA : keptRow ⟨7, "A", "B", "t", some "2025-01-01", some 4, "n", "c", "d", none, "w1"⟩ = true := by decide
    have hkB : keptRow ⟨8, "C", "D", "t", some "2025-01-02", some 3, "m", "c", "d", none, "w2"⟩ = true := by decide
    have hf1 : ([⟨7, "A", "B", "t", some "2025-01-01", some 4, "n", "c", "d", none, "w1"⟩, ⟨8, "C", "D", "t", some "2025-01-02", some 3, "m", "c", "d", none, "w2"⟩] : List RawRow).filter keptRow = [⟨7, "A", "B", "t", some "2025-01-01", some 4, "n", "c", "d", none, "w1"⟩, ⟨8, "C", "D", "t", some "2025-01-02", some 3, "m", "c", "d", none, "w2"⟩] := by
      simp [List.filter_cons, hkA, hkB]
    have hf2 : ([⟨8, "C", "D", "t", some "2025-01-02", some 3, "m", "c", "d", none, "w2"⟩, ⟨7, "A", "B", "t", some "2025-01-01", some 4, "n", "c", "d", none, "w1"⟩] : List RawRow).filter keptRow = [⟨8, "C", "D", "t", some "2025-01-02", some 3, "m", "c", "d", none, "w2"⟩, ⟨7, "A", "B", "t", some "2025-01-01", some 4, "n", "c", "d", none, "w1"⟩] := by
      simp [List.filter_cons, hkA, hkB]
    rw [hf1, hf2]
    exact List.Perm.swap (⟨8, "C", "D", "t", some "2025-01-02", some 3, "m", "c", "d", none, "w2"⟩ : RawRow) (⟨7, "A", "B", "t", some "2025-01-01", some 4, "n", "c", "d", none, "w1"⟩ : RawRow) []
  · intro hperm
    have hm := hperm.map (fun task => (task.tfsId, task.title))
    rw [parse_pair_AB, parse_pair_BA] at hm
    have hmem : ((-1 : Int), "w1 - A B (2025-01-01)") ∈
        ([((-1 : Int), "w2 - C D (2025-01-02)"),
          ((-2 : Int), "w1 - A B (2025-01-01)")] : List (Int × String)) :=
      hm.mem_iff.mp (by decide)
    exact absurd hmem (by decide)

/-- C9, amended: the grouper ignores rows that the filter drops — running it
on the pre-filtered batch yields exactly the same task list — and the only
order-independent aggregate promised by the code is the commutative hours
sum: permuting the batch leaves the total of `totalActualHours` across all
produced tasks unchanged. Full order independence of the task list fails
(see the counterexample): placeholder ids and insertion order follow row
iteration order. -/
theorem claim_C9 :
    (∀ rows : List RawRow,
      parseTimesheetData (rows.filter keptRow) = parseTimesheetData rows) ∧
    (∀ rows1 rows2 : List RawRow, rows1.Perm rows2 →
      ((parseTimesheetData rows1).map (fun task => task.totalActualHours)).sum =
        ((parseTimesheetData rows2).map (fun task => task.totalActualHours)).sum) := by
  constructor
  · intro rows
    rw [parseTimesheetData, parseTimesheetData]
    have h1 : ∀ (st : GroupState) (r : RawRow),
        processRow (rows.filter keptRow) st r = processRow rows st r :=
      fun st r => processRow_eq_of_devCount _ _ (devCountJs_filter rows) st r
    rw [foldl_fn_congr _ _ h1 (rows.filter keptRow) ⟨[], -1⟩,
      foldl_filter_skip keptRow _ (fun st r hr => processRow_skip rows st r hr)
        rows ⟨[], -1⟩]
  · intro rows1 rows2 hperm
    rw [parse_sum rows1, parse_sum rows2]
    exact ((hperm.filter keptRow).map fun r => r.workHrs.getD 0).sum_eq

theorem claim_C9_witness :
    ([⟨7, "A", "B", "t", some "2025-01-01", some 4, "n", "c", "d", none, "w1"⟩, ⟨8, "C", "D", "t", some "2025-01-02", some 3, "m", "c", "d", none, "w2"⟩] : List RawRow).Perm [⟨8, "C", "D", "t", some "2025-01-02", some 3, "m", "c", "d", none, "w2"⟩, ⟨7, "A", "B", "t", some "2025-01-01", some 4, "n", "c", "d", none, "w1"⟩] ∧
    ((parseTimesheetData [⟨7, "A", "B", "t", some "2025-01-01", some 4, "n", "c", "d", none, "w1"⟩, ⟨8, "C", "D", "t", some "2025-01-02", some 3, "m", "c", "d", none, "w2"⟩]).map
        (fun task => task.totalActualHours)).sum =
      ((parseTimesheetData [⟨8, "C", "D", "t", some "2025-01-02", some 3, "m", "c", "d", none, "w2"⟩, ⟨7, "A", "B", "t", some "2025-01-01", some 4, "n", "c", "d", none, "w1"⟩]).map
        (fun task => task.totalActualHours)).sum :=
  ⟨List.Perm.swap (⟨8, "C", "D", "t", some "2025-01-02", some 3, "m", "c", "d", none, "w2"⟩ : RawRow) (⟨7, "A", "B", "t", some "2025-01-01", some 4, "n", "c", "d", none, "w1"⟩ : RawRow) [],
    claim_C9.2 _ _ (List.Perm.swap (⟨8, "C", "D", "t", some "2025-01-02", some 3, "m", "c", "d", none, "w2"⟩ : RawRow) (⟨7, "A", "B", "t", some "2025-01-01", some 4, "n", "c", "d", none, "w1"⟩ : RawRow) [])⟩

end GPP
